import Mathlib

/-!
Verification development for the order-fulfillment core of Blitz-API
(`store/serializers.py`): `OrderSerializer.create` and the coupon
serializer (`CouponSerializer.validate` / `create` / `update`).

The Django/DRF code is shallowly embedded as pure Lean functions over an
explicit database-state record `St`.  Exceptions (`serializers.ValidationError`,
and `PaymentAPIError` from the payment gateway, which `create` always catches
and re-raises as a `ValidationError`) are modelled with `Except ErrReason`.
`with transaction.atomic():` is modelled by running the block body and, on
error, returning the state as it was when the block was entered.  External
payment-API calls are recorded in a trace (`ExtCall`) because they are *not*
rolled back by the database transaction.

Monetary amounts use `ℚ` (Python `Decimal` arithmetic is exact at the sizes
involved; `Decimal(repr(TAX_RATE))` / `Decimal(repr(TAX_RATE + 1))` are taken
to denote the exact rationals `rate` and `1 + rate`).
-/

namespace BlitzOrder

/-!
Mathlib's `Rat.add`, `Rat.mul`, `Rat.sub` and `Rat.inv` are `@[irreducible]`
and therefore opaque to kernel evaluation (`decide`).  The embedding instead
uses the kernel-computable constructors below (built from `mkRat` and integer
arithmetic on `num`/`den`); the `q*_eq` bridge lemmas prove them equal to the
ordinary field operations on `ℚ`, so nothing is lost semantically. -/

/-- Exact rational addition (kernel-computable). -/
def qadd (a b : ℚ) : ℚ :=
  mkRat (a.num * b.den + b.num * a.den) (a.den * b.den)

/-- Exact rational multiplication (kernel-computable). -/
def qmul (a b : ℚ) : ℚ :=
  mkRat (a.num * b.num) (a.den * b.den)

/-- Exact rational subtraction (kernel-computable). -/
def qsub (a b : ℚ) : ℚ :=
  mkRat (a.num * b.den - b.num * a.den) (a.den * b.den)

/-- Sum of a list of rationals (kernel-computable). -/
def qsum (l : List ℚ) : ℚ :=
  l.foldr qadd 0

/-- Round to the nearest integer, ties to even.  This is the rounding
performed by Python's built-in `round` and by `decimal` quantization under
the default `ROUND_HALF_EVEN` context, as used in `OrderSerializer.create`
(`round(amount * 100, 2)`, `int(round(amount))`, `tax.quantize(Decimal('0.01'))`).
With `f = ⌊q⌋` the fractional part is `(q.num - f * q.den) / q.den`, so the
integer comparisons below encode `q - f < 1/2` and `1/2 < q - f`. -/
def roundHalfEven (q : ℚ) : ℤ :=
  if 2 * (q.num - ⌊q⌋ * q.den) < (q.den : ℤ) then ⌊q⌋
  else if (q.den : ℤ) < 2 * (q.num - ⌊q⌋ * q.den) then ⌊q⌋ + 1
  else if ⌊q⌋ % 2 = 0 then ⌊q⌋ else ⌊q⌋ + 1

/-- Quantization to two decimal places, ties to even: Python
`x.quantize(Decimal('0.01'))` and `round(x, 2)`.  (The quantized value is
`roundHalfEven (q * 100) / 100`; the `qmul q 100` below is bridged to
`q * 100` by `qmul_eq`.) -/
def quantize2 (q : ℚ) : ℚ :=
  mkRat (roundHalfEven (qmul q 100)) 100

/-- Truncation toward zero: Python `int(x)` on a `Decimal`. -/
def truncQ (q : ℚ) : ℤ :=
  q.num.tdiv q.den

/-- Round half up, i.e. `⌊q + 1/2⌋` (ties away from zero for the
nonnegative amounts at hand), computed on `num`/`den`.  This follows the
spec's words ("round-half-up at the final step only"); it is *not* what the
source code computes, and is kept only to compare the spec's formula with
the embedded code. -/
def roundHalfUp (q : ℚ) : ℤ :=
  (2 * q.num + q.den).fdiv (2 * q.den)

/-- The spec's formula for the minor-unit (cents) amount sent to the gateway:
`round((total * (1 + rate)) * 100)` with round-half-up at the final step only.
Modelled from the spec's words for comparison with the code. -/
def specMinorUnits (total rate : ℚ) : ℤ :=
  roundHalfUp (qmul (qmul total (qadd 1 rate)) 100)

/-- The polymorphic `content_type` tag of an order line
(`content_type__model` in the queryset filters of `OrderSerializer.create`). -/
inductive CType
  | membership
  | package
  | timeslot
  | retirement
deriving DecidableEq

/-- One entry of `validated_data['order_lines']` as submitted to
`OrderSerializer.create`: content type, target object id, quantity. -/
structure LineData where
  ctype : CType
  objId : ℕ
  quantity : ℤ
deriving DecidableEq

/-- An order line validated by `OrderLineSerializer.validate`, which also
computed `cost` for membership/package/retirement lines. -/
structure ValidLine where
  ctype : CType
  objId : ℕ
  quantity : ℤ
  cost : ℚ
deriving DecidableEq

/-- A persisted `OrderLine` row. -/
structure OrderLineRow where
  orderId : ℕ
  ctype : CType
  objId : ℕ
  quantity : ℤ
  cost : ℚ
  coupon : Option String
  couponRealValue : ℚ
deriving DecidableEq

/-- A `TimeSlot` as read by `OrderSerializer.create`: its ticket price and
the seat count of `timeslot.period.workplace` (`none` when the period has no
workplace, in which case `timeslot.period.workplace` is falsy in the source). -/
structure TimeslotP where
  price : ℚ
  workplaceSeats : Option ℤ
deriving DecidableEq

/-- A `Retirement` as read by `OrderSerializer.create`. -/
structure RetirementP where
  price : ℚ
  seats : ℤ
  reservedSeats : ℤ
  exclusiveMemberships : List ℕ
deriving DecidableEq

/-- A `Membership` product. -/
structure MembershipP where
  price : ℚ
  /-- `duration` in days; `timezone.now().date() + duration` is modelled as
  integer day arithmetic. -/
  duration : ℤ
  academicLevels : List ℕ
deriving DecidableEq

/-- A `Package` product. -/
structure PackageP where
  price : ℚ
  reservations : ℤ
  exclusiveMemberships : List ℕ
deriving DecidableEq

/-- The requesting user's row (`self.context['request'].user`), with the
fields read or written by `OrderSerializer.create` and
`OrderLineSerializer.validate`. -/
structure UserRow where
  tickets : ℤ
  membership : Option ℕ
  membershipEnd : ℤ
  academicLevel : Option ℕ
  phone : String
  city : String
  isStaff : Bool
deriving DecidableEq

/-- A `workplace.models.Reservation` row. -/
structure TsRes where
  user : ℕ
  timeslot : ℕ
  isActive : Bool
deriving DecidableEq

/-- A `retirement.models.Reservation` row. -/
structure RetRes where
  user : ℕ
  retirement : ℕ
  isActive : Bool
deriving DecidableEq

/-- A `Coupon` row, with its applicable product set flattened to
(content-type, object-id) pairs. -/
structure CouponRow where
  code : String
  value : Option ℚ
  percentOff : Option ℤ
  maxUse : ℤ
  maxUsePerUser : ℤ
  applicable : List (CType × ℕ)
deriving DecidableEq

/-- A `CouponUser` join row with its `uses` counter. -/
structure CouponUserRow where
  user : ℕ
  coupon : String
  uses : ℤ
deriving DecidableEq

/-- The database state visible to one `OrderSerializer.create` call.
`uid`/`user` are the requesting user; catalogs are keyed association lists;
`waitQueue` and `wqNotifs` hold `(user, retirement)` pairs; `hasProfile`
says whether a `PaymentProfile` row exists for the requesting user. -/
structure St where
  uid : ℕ
  user : UserRow
  timeslots : List (ℕ × TimeslotP)
  retirements : List (ℕ × RetirementP)
  membershipsCat : List (ℕ × MembershipP)
  packagesCat : List (ℕ × PackageP)
  coupons : List CouponRow
  tsRes : List TsRes
  retRes : List RetRes
  waitQueue : List (ℕ × ℕ)
  wqNotifs : List (ℕ × ℕ)
  couponUsers : List CouponUserRow
  orders : List ℕ
  orderLines : List OrderLineRow
  hasProfile : Bool
deriving DecidableEq

/-- The distinct `serializers.ValidationError` raise sites reachable from
`OrderSerializer.create` (together with `OrderLineSerializer.validate`,
which DRF runs before `create`).  `paymentApi` is a `PaymentAPIError` from
the gateway caught by the source and re-raised as a `ValidationError`. -/
inductive ErrReason
  | objectDoesNotExist
  | notEligible
  | paymentApi
  | couponNotEligible
  | couponExhausted
  | couponUserExhausted
  | alreadyActiveMembership
  | notEnoughTickets
  | alreadyRegisteredTimeslot
  | noPlacesTimeslot
  | incompleteProfile
  | alreadyRegisteredRetirement
  | noPlacesRetirement
  | tokenRequired
  | couponBothSet
  | couponNoneSet
  | codesExhausted
deriving DecidableEq

/-- One call to the external payment API (Paysafe), in order of occurrence.
These calls are side-effecting and are *not* undone by the enclosing
database transaction. -/
inductive ExtCall
  | createProfile
  | createCard
  | charge (amount : ℤ)
deriving DecidableEq

/-- Behaviour of the external payment API for this request: whether each
kind of call succeeds or raises `PaymentAPIError`. -/
structure Gateway where
  createProfileOk : Bool
  createCardOk : Bool
  chargeOk : Bool
deriving DecidableEq

/-- Data returned on a successful order: the order id, the computed `tax`
and the 2-decimal minor-unit amount (`amount` after `round(amount*100, 2)`). -/
structure SuccessInfo where
  orderId : ℕ
  tax : ℚ
  amountCents : ℚ
deriving DecidableEq

/-- The input of one `OrderSerializer.create` call. -/
structure CreateIn where
  lines : List LineData
  coupon : Option String
  paymentToken : Bool
  singleUseToken : Bool
  orderId : ℕ
  today : ℤ
  rate : ℚ

/-- The outcome of one `OrderSerializer.create` call: final database state,
trace of external payment-API calls, and result. -/
structure CreateOut where
  st : St
  calls : List ExtCall
  result : Except ErrReason SuccessInfo

/-- Projection of the error of a result, for stating counterexamples. -/
def resultError : Except ErrReason SuccessInfo → Option ErrReason
  | .error e => some e
  | .ok _ => none

/-- Python `user_membership not in obj.exclusive_memberships.all()`
(`None` is not a member of any list). -/
def membershipNotIn (m : Option ℕ) (ex : List ℕ) : Bool :=
  match m with
  | some v => ¬ (v ∈ ex)
  | none => true

/-- Python `user_academic_level not in obj.academic_levels.all()`. -/
def levelNotIn (a : Option ℕ) (lv : List ℕ) : Bool :=
  match a with
  | some v => ¬ (v ∈ lv)
  | none => true

/-- `OrderLineSerializer.validate` for one order line: the referenced object
must exist; non-staff users must satisfy the membership-exclusivity gate for
packages and retirements and the academic-level gate for memberships; for
membership/package/retirement lines `cost := obj.price * quantity`.
A timeslot line's cost is left at the `OrderLine` model's default of `0`
(the `cost` field is not set for timeslots; modelled from the spec, which
treats timeslot booking as ticket-paid with no money movement). -/
def checkLine (s : St) (l : LineData) : Except ErrReason ValidLine :=
  match l.ctype with
  | .membership =>
    match s.membershipsCat.lookup l.objId with
    | none => .error .objectDoesNotExist
    | some m =>
      if ¬s.user.isStaff ∧ m.academicLevels ≠ [] ∧
          levelNotIn s.user.academicLevel m.academicLevels then
        .error .notEligible
      else
        .ok ⟨l.ctype, l.objId, l.quantity, qmul m.price (l.quantity : ℚ)⟩
  | .package =>
    match s.packagesCat.lookup l.objId with
    | none => .error .objectDoesNotExist
    | some p =>
      if ¬s.user.isStaff ∧ p.exclusiveMemberships ≠ [] ∧
          membershipNotIn s.user.membership p.exclusiveMemberships then
        .error .notEligible
      else
        .ok ⟨l.ctype, l.objId, l.quantity, qmul p.price (l.quantity : ℚ)⟩
  | .timeslot =>
    match s.timeslots.lookup l.objId with
    | none => .error .objectDoesNotExist
    | some _ => .ok ⟨l.ctype, l.objId, l.quantity, 0⟩
  | .retirement =>
    match s.retirements.lookup l.objId with
    | none => .error .objectDoesNotExist
    | some r =>
      if ¬s.user.isStaff ∧ r.exclusiveMemberships ≠ [] ∧
          membershipNotIn s.user.membership r.exclusiveMemberships then
        .error .notEligible
      else
        .ok ⟨l.ctype, l.objId, l.quantity, qmul r.price (l.quantity : ℚ)⟩

/-- DRF validation of all submitted order lines (run before `create`). -/
def validateLines (s : St) : List LineData → Except ErrReason (List ValidLine)
  | [] => .ok []
  | l :: ls =>
    match checkLine s l with
    | .error e => .error e
    | .ok v =>
      match validateLines s ls with
      | .error e => .error e
      | .ok vs => .ok (v :: vs)

/-- Resolution of the write-only `coupon` slug field (by `code`);
an unknown code is a DRF validation error raised before `create`. -/
def resolveCoupon (s : St) : Option String → Except ErrReason (Option CouponRow)
  | none => .ok none
  | some code =>
    match s.coupons.find? (fun c => c.code = code) with
    | none => .error .objectDoesNotExist
    | some c => .ok (some c)

/-- A fresh `OrderLine` row created by
`OrderLine.objects.create(order=order, **orderline_data)`. -/
def mkRow (oid : ℕ) (v : ValidLine) : OrderLineRow :=
  ⟨oid, v.ctype, v.objId, v.quantity, v.cost, none, 0⟩

/-- Replace the first element satisfying `p`. -/
def updateFirst (p : α → Bool) (f : α → α) : List α → List α
  | [] => []
  | x :: xs => if p x then f x :: xs else x :: updateFirst p f xs

/-- Increment `uses` on the requesting user's `CouponUser` row
(`coupon_user.uses = coupon_user.uses + 1`); the row is created by the
coupon-validation service if absent (modelled from the spec: per-user uses
are "tracked via a CouponUser join entity with a `uses` counter incremented
transactionally at redemption time"). -/
def incUses (l : List CouponUserRow) (u : ℕ) (code : String) : List CouponUserRow :=
  if l.any (fun cu => cu.coupon = code ∧ cu.user = u) then
    updateFirst (fun cu => cu.coupon = code ∧ cu.user = u)
      (fun cu => { cu with uses := cu.uses + 1 }) l
  else
    l ++ [⟨u, code, 1⟩]

/-- `order.total_cost`: modelled from the spec (`total cost (derived)`,
"order subtotal = sum of all line costs post-discount"); the `Order` model
itself is not part of the sources under review. -/
def orderTotalCost (s : St) (oid : ℕ) : ℚ :=
  qsum ((s.orderLines.filter (fun r => r.orderId = oid)).map (fun r => r.cost))

/-- The coupon block of `OrderSerializer.create` (lines 443-464).
`validate_coupon_for_order` lives in `store/services.py`, which is not part
of the sources under review; its outcome is modelled from the spec (§4.2):
the first order line matched by the coupon's applicable-product sets is
targeted (`NoEligibleLineError` if none), global and per-user usage caps are
checked, and the discount is `value`, or `cost * percent_off / 100`, never
exceeding the line's own cost.  On valid use the serializer increments the
user's `CouponUser.uses` and rewrites the target line's `cost`, `coupon` and
`coupon_real_value`. -/
def couponStep (s : St) (oid : ℕ) : Option CouponRow → Except ErrReason St
  | none => .ok s
  | some c =>
    match s.orderLines.find?
        (fun r => r.orderId = oid ∧ (r.ctype, r.objId) ∈ c.applicable) with
    | none => .error .couponNotEligible
    | some target =>
      if ((s.couponUsers.filter (fun cu => cu.coupon = c.code)).map
          (fun cu => cu.uses)).sum ≥ c.maxUse then
        .error .couponExhausted
      else if (match s.couponUsers.find?
            (fun cu => cu.coupon = c.code ∧ cu.user = s.uid) with
          | some cu => cu.uses
          | none => 0) ≥ c.maxUsePerUser then
        .error .couponUserExhausted
      else
        let raw : ℚ :=
          match c.value with
          | some v => v
          | none => qmul target.cost (mkRat (c.percentOff.getD 0) 100)
        let disc : ℚ := min raw target.cost
        .ok { s with
          couponUsers := incUses s.couponUsers s.uid c.code,
          orderLines := updateFirst
            (fun r => r.orderId = oid ∧ (r.ctype, r.objId) ∈ c.applicable)
            (fun r => { r with
              cost := qsub r.cost disc,
              coupon := some c.code,
              couponRealValue := disc })
            s.orderLines }

/-- The membership block of `OrderSerializer.create` (lines 486-499): with a
membership line present, reject if `user.membership` is truthy and
`user.membership_end > today`; otherwise set the user's membership to the
first membership line's product and `membership_end = today + duration`. -/
def processMembership (today : ℤ) (memRows : List ValidLine) (s : St) :
    Except ErrReason St :=
  match memRows with
  | [] => .ok s
  | m :: _ =>
    if s.user.membership.isSome ∧ s.user.membershipEnd > today then
      .error .alreadyActiveMembership
    else
      match s.membershipsCat.lookup m.objId with
      | none => .error .objectDoesNotExist
      | some mp =>
        .ok { s with user := { s.user with
          membership := some m.objId,
          membershipEnd := today + mp.duration } }

/-- The package block of `OrderSerializer.create` (lines 500-507):
`user.tickets += package.reservations * quantity` for each package line. -/
def processPackages : List ValidLine → St → Except ErrReason St
  | [], s => .ok s
  | p :: rest, s =>
    match s.packagesCat.lookup p.objId with
    | none => .error .objectDoesNotExist
    | some pk =>
      processPackages rest
        { s with user := { s.user with
            tickets := s.user.tickets + pk.reservations * p.quantity } }

/-- Active reservations of a timeslot
(`timeslot.reservations.filter(is_active=True)`). -/
def activeTsFor (resv : List TsRes) (tid : ℕ) : List TsRes :=
  resv.filter (fun r => r.timeslot = tid ∧ r.isActive)

/-- Whether the requesting user already holds an active reservation on a
timeslot (`reservations.filter(user=user)` being non-empty). -/
def hasActiveTsRes (s : St) (tid : ℕ) : Bool :=
  (activeTsFor s.tsRes tid).any (fun r => r.user = s.uid)

/-- One iteration of the timeslot loop of `OrderSerializer.create`
(lines 509-546): count active reservations; reject if
`timeslot.price > user.tickets`; reject if the user is already registered;
if the period has a workplace with `seats - reserved > 0` create an active
`Reservation` and debit exactly one ticket, else reject with the
no-places-left error. -/
def processTimeslotLine (s : St) (row : ValidLine) : Except ErrReason St :=
  match s.timeslots.lookup row.objId with
  | none => .error .objectDoesNotExist
  | some ts =>
    if ts.price > s.user.tickets then
      .error .notEnoughTickets
    else if hasActiveTsRes s row.objId then
      .error .alreadyRegisteredTimeslot
    else
      match ts.workplaceSeats with
      | some seats =>
        if seats - ((activeTsFor s.tsRes row.objId).length : ℤ) > 0 then
          .ok { s with
            tsRes := s.tsRes ++ [⟨s.uid, row.objId, true⟩],
            user := { s.user with tickets := s.user.tickets - 1 } }
        else
          .error .noPlacesTimeslot
      | none => .error .noPlacesTimeslot

/-- The timeslot loop of `OrderSerializer.create`. -/
def processTimeslots : List ValidLine → St → Except ErrReason St
  | [], s => .ok s
  | r :: rest, s =>
    match processTimeslotLine s r with
    | .error e => .error e
    | .ok s' => processTimeslots rest s'

/-- Active reservations of a retirement
(`retirement.reservations.filter(is_active=True)`). -/
def activeRetFor (resv : List RetRes) (rid : ℕ) : List RetRes :=
  resv.filter (fun r => r.retirement = rid ∧ r.isActive)

/-- `retirement.total_reservations`: a derived property of the `Retirement`
model, which is not part of the sources under review; modelled from the spec
(§3: a capacity resource's "derived `reserved_count` = count of active
reservations"). -/
def totalReservations (s : St) (rid : ℕ) : ℤ :=
  ((activeRetFor s.retRes rid).length : ℤ)

/-- Whether the requesting user already holds an active reservation on a
retirement. -/
def hasActiveRetRes (s : St) (rid : ℕ) : Bool :=
  (activeRetFor s.retRes rid).any (fun r => r.user = s.uid)

/-- Whether the user has a `WaitQueueNotification` for this retirement. -/
def hasNotif (s : St) (rid : ℕ) : Bool :=
  s.wqNotifs.any (fun e => e.1 = s.uid ∧ e.2 = rid)

/-- Set `reserved_seats` on one retirement row (`retirement.save()`). -/
def setReservedSeats (l : List (ℕ × RetirementP)) (rid : ℕ) (v : ℤ) :
    List (ℕ × RetirementP) :=
  l.map (fun p => if p.1 = rid then (p.1, { p.2 with reservedSeats := v }) else p)

/-- One iteration of the retirement loop of `OrderSerializer.create`
(lines 558-599): reject a duplicate registration; admit when
`seats - total_reservations - reserved_seats > 0`, or when `reserved_seats`
is truthy and the user has a `WaitQueueNotification`; on admission create an
active reservation and, if `reserved_seats` is truthy, decrement it by one;
finally delete the user's wait-queue entries captured at the top of the
iteration (`user_waiting`). -/
def processRetirementLine (s : St) (row : ValidLine) : Except ErrReason St :=
  match s.retirements.lookup row.objId with
  | none => .error .objectDoesNotExist
  | some ret =>
    if hasActiveRetRes s row.objId then
      .error .alreadyRegisteredRetirement
    else if (ret.seats - totalReservations s row.objId - ret.reservedSeats > 0)
        ∨ (ret.reservedSeats ≠ 0 ∧ hasNotif s row.objId) then
      -- The source performs three sequential mutations (create the
      -- reservation; decrement `reserved_seats` when truthy; delete the
      -- `user_waiting` queryset captured at the top of the iteration);
      -- none of them reads state written by another, so they are written
      -- here as one simultaneous record update.
      .ok { s with
        retRes := s.retRes ++ [⟨s.uid, row.objId, true⟩],
        retirements :=
          if ret.reservedSeats ≠ 0 then
            setReservedSeats s.retirements row.objId (ret.reservedSeats - 1)
          else s.retirements,
        waitQueue :=
          if s.waitQueue.filter (fun e => e.1 = s.uid ∧ e.2 = row.objId) ≠ [] then
            s.waitQueue.filter (fun e => ¬(e.1 = s.uid ∧ e.2 = row.objId))
          else s.waitQueue }
    else
      .error .noPlacesRetirement

/-- The retirement block of `OrderSerializer.create` (lines 547-599): with
retirement lines present, `user.phone` and `user.city` must be non-blank,
then each line is processed in turn. -/
def processRetirements (retRows : List ValidLine) (s : St) :
    Except ErrReason St :=
  match retRows with
  | [] => .ok s
  | _ :: _ =>
    if s.user.phone = "" ∨ s.user.city = "" then
      .error .incompleteProfile
    else
      go retRows s
where
  /-- the `for retirement_orderline in retirement_orderlines` loop -/
  go : List ValidLine → St → Except ErrReason St
  | [], s => .ok s
  | r :: rest, s =>
    match processRetirementLine s r with
    | .error e => .error e
    | .ok s' => go rest s'

/-- The charge block of `OrderSerializer.create` (lines 601-638): with
`need_transaction` set and a truthy token and `int(amount)` non-zero, charge
`int(round(amount))` minor units — via the stored `payment_token`, or via a
card freshly created from the `single_use_token`; with product lines
requiring payment, a non-zero amount and no token, reject demanding a
token.  Returns the outcome together with the external calls performed. -/
def chargeStep (needTx paymentToken singleUseToken : Bool) (amount2 : ℚ)
    (gw : Gateway) : Except ErrReason Unit × List ExtCall :=
  if needTx ∧ paymentToken ∧ truncQ amount2 ≠ 0 then
    if gw.chargeOk then
      (.ok (), [.charge (roundHalfEven amount2)])
    else
      (.error .paymentApi, [.charge (roundHalfEven amount2)])
  else if needTx ∧ singleUseToken ∧ truncQ amount2 ≠ 0 then
    if gw.createCardOk then
      if gw.chargeOk then
        (.ok (), [.createCard, .charge (roundHalfEven amount2)])
      else
        (.error .paymentApi, [.createCard, .charge (roundHalfEven amount2)])
    else
      (.error .paymentApi, [.createCard])
  else if needTx ∧ truncQ amount2 ≠ 0 then
    (.error .tokenRequired, [])
  else
    (.ok (), [])

/-- The body of `with transaction.atomic():` in `OrderSerializer.create`
(lines 435-660): create the `Order` and its `OrderLine`s, apply the coupon,
compute `tax` and the minor-unit amount, run the membership / package /
timeslot / retirement blocks, then charge.  Returns the outcome and the
trace of external calls (which survive even when the body fails). -/
def createBody (gw : Gateway) (inp : CreateIn) (rows : List ValidLine)
    (cop : Option CouponRow) (s1 : St) :
    Except ErrReason (St × SuccessInfo) × List ExtCall :=
  let s2 : St := { s1 with
    orders := inp.orderId :: s1.orders,
    orderLines := s1.orderLines ++ rows.map (mkRow inp.orderId) }
  match couponStep s2 inp.orderId cop with
  | .error e => (.error e, [])
  | .ok s3 =>
    let total := orderTotalCost s3 inp.orderId
    let tax := quantize2 (qmul total inp.rate)
    let amount2 := quantize2 (qmul (qmul total (qadd 1 inp.rate)) 100)
    let memRows := rows.filter (fun r => r.ctype = CType.membership)
    let pkgRows := rows.filter (fun r => r.ctype = CType.package)
    let tsRows := rows.filter (fun r => r.ctype = CType.timeslot)
    let retRows := rows.filter (fun r => r.ctype = CType.retirement)
    match processMembership inp.today memRows s3 with
    | .error e => (.error e, [])
    | .ok s4 =>
      match processPackages pkgRows s4 with
      | .error e => (.error e, [])
      | .ok s5 =>
        match processTimeslots tsRows s5 with
        | .error e => (.error e, [])
        | .ok s6 =>
          match processRetirements retRows s6 with
          | .error e => (.error e, [])
          | .ok s7 =>
            let needTx : Bool :=
              ¬memRows.isEmpty ∨ ¬pkgRows.isEmpty ∨ ¬retRows.isEmpty
            match chargeStep needTx inp.paymentToken inp.singleUseToken
                amount2 gw with
            | (.error e, calls) => (.error e, calls)
            | (.ok _, calls) =>
              (.ok (s7, ⟨inp.orderId, tax, amount2⟩), calls)

/-- `OrderSerializer.create`: DRF line validation and coupon-slug resolution
run first; then, when a `single_use_token` is supplied and the user has no
`PaymentProfile`, an external profile is created *before* the atomic block
(so it persists even if the order later fails); then the atomic block runs,
its state changes being kept only on success. -/
def orderCreate (gw : Gateway) (inp : CreateIn) (s : St) : CreateOut :=
  match validateLines s inp.lines with
  | .error e => ⟨s, [], .error e⟩
  | .ok rows =>
    match resolveCoupon s inp.coupon with
    | .error e => ⟨s, [], .error e⟩
    | .ok cop =>
      if inp.singleUseToken ∧ ¬s.hasProfile then
        if gw.createProfileOk then
          match createBody gw inp rows cop { s with hasProfile := true } with
          | (.error e, calls) =>
            ⟨{ s with hasProfile := true }, .createProfile :: calls, .error e⟩
          | (.ok (s', info), calls) => ⟨s', .createProfile :: calls, .ok info⟩
        else
          ⟨s, [.createProfile], .error .paymentApi⟩
      else
        match createBody gw inp rows cop s with
        | (.error e, calls) => ⟨s, calls, .error e⟩
        | (.ok (s', info), calls) => ⟨s', calls, .ok info⟩

/-- Python truthiness of an optional decimal field (`None` and `0` falsy). -/
def pyTruthyQ : Option ℚ → Bool
  | none => false
  | some v => v ≠ 0

/-- Python truthiness of an optional integer field (`None` and `0` falsy). -/
def pyTruthyZ : Option ℤ → Bool
  | none => false
  | some v => v ≠ 0

/-- Python `new_value != 0` where `new_value` may be `None`
(`None != 0` evaluates to `True`). -/
def pyNeZeroQ : Option ℚ → Bool
  | none => true
  | some v => v ≠ 0

/-- Python `new_percent_off != 0` where `new_percent_off` may be `None`. -/
def pyNeZeroZ : Option ℤ → Bool
  | none => true
  | some v => v ≠ 0

/-- `CouponSerializer.validate` (lines 810-830): reject when both
`value` and `percent_off` are truthy; when the view action is not
`partial_update`, additionally reject when neither is truthy.
`isPatch` is true exactly for the `partial_update` action. -/
def couponValidate (value : Option ℚ) (percentOff : Option ℤ)
    (isPatch : Bool) : Except ErrReason Unit :=
  if pyTruthyQ value ∧ pyTruthyZ percentOff then
    .error .couponBothSet
  else if ¬isPatch ∧ ¬pyTruthyQ value ∧ ¬pyTruthyZ percentOff then
    .error .couponNoneSet
  else
    .ok ()

/-- `value_off` in `CouponSerializer.update`:
`(not instance.value and new_value) or (instance.value and new_value != 0)`,
where an absent new value is `None` and `None != 0` is `True`. -/
def valueOffB (instValue newValue : Option ℚ) : Bool :=
  (¬pyTruthyQ instValue ∧ pyTruthyQ newValue) ∨
  (pyTruthyQ instValue ∧ pyNeZeroQ newValue)

/-- `percent_off` in `CouponSerializer.update` (same shape as `value_off`). -/
def percentOffB (instPercent newPercent : Option ℤ) : Bool :=
  (¬pyTruthyZ instPercent ∧ pyTruthyZ newPercent) ∨
  (pyTruthyZ instPercent ∧ pyNeZeroZ newPercent)

/-- The field value persisted by `super().update(...)`: the provided value
when present, otherwise the instance's value. -/
def updatedField (inst new : Option α) : Option α :=
  match new with
  | some v => some v
  | none => inst

/-- `CouponSerializer.update` (lines 856-885): with `value_off` /
`percent_off` computed exactly as in the source, reject when both or
neither hold; otherwise persist the provided fields over the instance's.
Returns the persisted `(value, percent_off)` pair. -/
def couponUpdate (instValue : Option ℚ) (instPercent : Option ℤ)
    (newValue : Option ℚ) (newPercent : Option ℤ) :
    Except ErrReason (Option ℚ × Option ℤ) :=
  if valueOffB instValue newValue ∧ percentOffB instPercent newPercent then
    .error .couponBothSet
  else if ¬valueOffB instValue newValue ∧ ¬percentOffB instPercent newPercent then
    .error .couponNoneSet
  else
    .ok (updatedField instValue newValue, updatedField instPercent newPercent)

/-- A full coupon update request: DRF runs `validate` (with the given view
action) before `update`. -/
def couponUpdateFlow (instValue : Option ℚ) (instPercent : Option ℤ)
    (newValue : Option ℚ) (newPercent : Option ℤ) (isPatch : Bool) :
    Except ErrReason (Option ℚ × Option ℤ) :=
  match couponValidate newValue newPercent isPatch with
  | .error e => .error e
  | .ok _ => couponUpdate instValue instPercent newValue newPercent

/-- Python `not code or code in used_code` — the loop guard's first
conjunct in `CouponSerializer.create` (an absent code is modelled as `""`,
which like `None` is falsy). -/
def badCode (used : List String) (code : String) : Bool :=
  code = "" ∨ code ∈ used

/-- The collision-retry loop of `CouponSerializer.create` (lines 839-846):
`while ((not code or code in used_code) and (n < 100)): code = <random>;
n += 1`, written with the structural fuel `100 - n` so that the kernel can
evaluate it.  This is faithful: the loop guard's `n < 100` conjunct fails
exactly when the fuel is exhausted, so the fuel-0 exit coincides with the
source's loop exit.  The random generator is the oracle `gen`: the `n`-th
generation draws `gen n`. -/
def genLoopAux (gen : ℕ → String) (used : List String) :
    ℕ → String → ℕ → String × ℕ
  | 0, code, n => (code, n)
  | fuel + 1, code, n =>
    if badCode used code ∧ n < 100 then genLoopAux gen used fuel (gen n) (n + 1)
    else (code, n)

/-- The loop entered at counter `n` (the serializer starts it at `n = 0`). -/
def genLoop (gen : ℕ → String) (used : List String) (code : String)
    (n : ℕ) : String × ℕ :=
  genLoopAux gen used (100 - n) code n

/-- `CouponSerializer.create` (lines 832-854), restricted to the code
computation: run the retry loop from the provided code, then
`if n >= 100: raise ValidationError(...)`, else persist the settled code. -/
def couponCreateCode (provided : String) (used : List String)
    (gen : ℕ → String) : Except ErrReason String :=
  let p := genLoop gen used provided 0
  if p.2 ≥ 100 then .error .codesExhausted else .ok p.1

/-- The capacity of a timeslot: the parent workplace's seat count, `0` when
the period has no workplace. -/
def capacityOf (ts : TimeslotP) : ℤ :=
  ts.workplaceSeats.getD 0

/-- Number of active reservations on a timeslot. -/
def activeTsCount (resv : List TsRes) (tid : ℕ) : ℕ :=
  (activeTsFor resv tid).length

/-- The overbooking-prevention invariant: every timeslot has at most
`capacity` active reservations. -/
def tsInv (s : St) : Prop :=
  ∀ tid ts, s.timeslots.lookup tid = some ts →
    (activeTsCount s.tsRes tid : ℤ) ≤ capacityOf ts

/-- Number of active reservations a given user holds on a given timeslot. -/
def tsPairCount (resv : List TsRes) (u tid : ℕ) : ℕ :=
  ((activeTsFor resv tid).filter (fun r => r.user = u)).length

/-- Number of active reservations a given user holds on a given retirement. -/
def retPairCount (resv : List RetRes) (u rid : ℕ) : ℕ :=
  ((activeRetFor resv rid).filter (fun r => r.user = u)).length

/-- At most one active reservation per (user, resource) pair, for both
resource kinds. -/
def pairInv (s : St) : Prop :=
  (∀ u tid, tsPairCount s.tsRes u tid ≤ 1) ∧
  (∀ u rid, retPairCount s.retRes u rid ≤ 1)

/-- Equality of all rolled-back state components: everything except
`hasProfile` (the local `PaymentProfile` row is created before the atomic
block and survives a failed order). -/
def rollbackEq (s s' : St) : Prop :=
  s'.uid = s.uid ∧ s'.user = s.user ∧ s'.timeslots = s.timeslots ∧
  s'.retirements = s.retirements ∧ s'.membershipsCat = s.membershipsCat ∧
  s'.packagesCat = s.packagesCat ∧ s'.coupons = s.coupons ∧
  s'.tsRes = s.tsRes ∧ s'.retRes = s.retRes ∧ s'.waitQueue = s.waitQueue ∧
  s'.wqNotifs = s.wqNotifs ∧ s'.couponUsers = s.couponUsers ∧
  s'.orders = s.orders ∧ s'.orderLines = s.orderLines

/-- Concrete fixtures for the witness theorems below: a non-staff user with
5 tickets and a complete profile, a timeslot (price 1, workplace with 2
seats), a retirement (price 100, 3 seats, 1 reserved seat), a membership
(price 50, 365-day duration) and a package (price 0.10, 4 tickets). -/
def wUser : UserRow := ⟨5, none, 0, none, "p", "c", false⟩

def wSt : St where
  uid := 1
  user := wUser
  timeslots := [(10, ⟨1, some 2⟩)]
  retirements := [(20, ⟨100, 3, 1, []⟩)]
  membershipsCat := [(30, ⟨50, 365, []⟩)]
  packagesCat := [(40, ⟨mkRat 1 10, 4, []⟩)]
  coupons := [⟨"CODE", none, some 10, 100, 10, [(CType.package, 40)]⟩]
  tsRes := []
  retRes := []
  waitQueue := []
  wqNotifs := []
  couponUsers := []
  orders := []
  orderLines := []
  hasProfile := false

def wGwOk : Gateway := ⟨true, true, true⟩

def wGwChargeFail : Gateway := ⟨true, true, false⟩

/-- A membership order paid with a stored `payment_token`. -/
def wInpMembership : CreateIn := ⟨[⟨.membership, 30, 1⟩], none, true, false, 99, 0, mkRat 1 20⟩

/-- A pure timeslot order (one line, no tokens). -/
def wInpTs : CreateIn := ⟨[⟨.timeslot, 10, 1⟩], none, false, false, 99, 0, mkRat 1 20⟩

/-- A state where user 1 already holds an unexpired membership. -/
def wStActiveMem : St :=
  { wSt with user := { wUser with membership := some 30, membershipEnd := 5 } }

/-- A state where user 1 already holds an active reservation on timeslot 10
but has no tickets left. -/
def wDupSt : St :=
  { wSt with tsRes := [⟨1, 10, true⟩], user := { wUser with tickets := 0 } }

/-- A one-package order (price 0.10) paid with a stored token at a 5% tax
rate: the cents amount 10.5 is a rounding tie. -/
def wInpPkg : CreateIn := ⟨[⟨.package, 40, 1⟩], none, true, false, 99, 0, mkRat 1 20⟩

/-- A pure timeslot order paid with a `single_use_token`. -/
def wInpTsSut : CreateIn := ⟨[⟨.timeslot, 10, 1⟩], none, false, true, 99, 0, mkRat 1 20⟩

/-- The same one-package order as `wInpPkg` but with no token at all. -/
def wInpPkgNoTok : CreateIn := ⟨[⟨.package, 40, 1⟩], none, false, false, 99, 0, mkRat 1 20⟩

/-- A state where retirement 20 (3 seats, 1 reserved) is fully booked by
users 2 and 3, and user 1 holds a wait-queue notification and a wait-queue
entry for it. -/
def wStC5 : St :=
  { wSt with retRes := [⟨2, 20, true⟩, ⟨3, 20, true⟩],
             wqNotifs := [(1, 20)], waitQueue := [(1, 20)] }

/-- A one-retirement order paid with a stored token. -/
def wInpRet : CreateIn := ⟨[⟨.retirement, 20, 1⟩], none, true, false, 99, 0, mkRat 1 20⟩

/-- Whether an external call is a charge. -/
def isChargeCall : ExtCall → Bool
  | .charge _ => true
  | _ => false

/-- A single validated timeslot line targeting timeslot 10. -/
def wTsLine : ValidLine := ⟨.timeslot, 10, 1, 0⟩

/-- The state after a successful reservation of timeslot 10 by user 1. -/
def wTsOut : St :=
  { wSt with tsRes := [⟨1, 10, true⟩], user := { wUser with tickets := 4 } }

instance {ε α : Type} [DecidableEq ε] [DecidableEq α] :
    DecidableEq (Except ε α) := fun x y =>
  match x, y with
  | .ok a, .ok b =>
    if h : a = b then isTrue (by rw [h])
    else isFalse (fun hc => h (Except.ok.inj hc))
  | .error a, .error b =>
    if h : a = b then isTrue (by rw [h])
    else isFalse (fun hc => h (Except.error.inj hc))
  | .ok _, .error _ => isFalse (fun hc => Except.noConfusion hc)
  | .error _, .ok _ => isFalse (fun hc => Except.noConfusion hc)

def wGen99 : ℕ → String := fun i => if i < 99 then "A" else "B"

theorem qadd_eq (a b : ℚ) : qadd a b = a + b := by
  have ha : (a.den : ℚ) ≠ 0 := by
    exact_mod_cast a.den_nz
  have hb : (b.den : ℚ) ≠ 0 := by
    exact_mod_cast b.den_nz
  rw [qadd, Rat.mkRat_eq_div]
  push_cast
  conv_rhs => rw [← Rat.num_div_den a, ← Rat.num_div_den b]
  rw [div_add_div _ _ ha hb]
  congr 1
  ring

theorem qmul_eq (a b : ℚ) : qmul a b = a * b := by
  have ha : (a.den : ℚ) ≠ 0 := by
    exact_mod_cast a.den_nz
  have hb : (b.den : ℚ) ≠ 0 := by
    exact_mod_cast b.den_nz
  rw [qmul, Rat.mkRat_eq_div]
  push_cast
  conv_rhs => rw [← Rat.num_div_den a, ← Rat.num_div_den b]
  rw [div_mul_div_comm]

theorem qsub_eq (a b : ℚ) : qsub a b = a - b := by
  have ha : (a.den : ℚ) ≠ 0 := by
    exact_mod_cast a.den_nz
  have hb : (b.den : ℚ) ≠ 0 := by
    exact_mod_cast b.den_nz
  rw [qsub, Rat.mkRat_eq_div]
  push_cast
  conv_rhs => rw [← Rat.num_div_den a, ← Rat.num_div_den b]
  rw [div_sub_div _ _ ha hb]
  congr 1
  ring

theorem qsum_eq (l : List ℚ) : qsum l = l.sum := by
  induction l with
  | nil => rfl
  | cons x xs ih =>
    rw [qsum, List.foldr_cons, List.sum_cons, ← ih, qsum, qadd_eq]

/-- `roundHalfEven` phrased with rational comparisons against `1/2`. -/
theorem roundHalfEven_def (q : ℚ) :
    roundHalfEven q =
      if q - ⌊q⌋ < 1/2 then ⌊q⌋
      else if 1/2 < q - ⌊q⌋ then ⌊q⌋ + 1
      else if ⌊q⌋ % 2 = 0 then ⌊q⌋ else ⌊q⌋ + 1 := by
  have hd : (0 : ℚ) < (q.den : ℚ) := by
    exact_mod_cast q.pos
  have hr : q - (⌊q⌋ : ℚ) = ((q.num - ⌊q⌋ * q.den : ℤ) : ℚ) / (q.den : ℚ) := by
    rw [Int.cast_sub, Int.cast_mul, Int.cast_natCast, sub_div, Rat.num_div_den,
      mul_div_assoc, div_self (ne_of_gt hd), mul_one]
  have hcast : ∀ x y : ℤ, ((x : ℚ) < (y : ℚ)) ↔ x < y := fun x y => Int.cast_lt
  have h1 : (q - (⌊q⌋ : ℚ) < 1/2) ↔ (2 * (q.num - ⌊q⌋ * q.den) < (q.den : ℤ)) := by
    rw [hr, div_lt_div_iff₀ hd (by norm_num : (0:ℚ) < 2), ← hcast]
    push_cast
    constructor <;> intro h <;> linarith
  have h2 : (1/2 < q - (⌊q⌋ : ℚ)) ↔ ((q.den : ℤ) < 2 * (q.num - ⌊q⌋ * q.den)) := by
    rw [hr, div_lt_div_iff₀ (by norm_num : (0:ℚ) < 2) hd, ← hcast]
    push_cast
    constructor <;> intro h <;> linarith
  rw [roundHalfEven]
  by_cases c1 : q - (⌊q⌋ : ℚ) < 1/2
  · rw [if_pos (h1.mp c1), if_pos c1]
  · rw [if_neg (fun hc => c1 (h1.mpr hc)), if_neg c1]
    by_cases c2 : 1/2 < q - (⌊q⌋ : ℚ)
    · rw [if_pos (h2.mp c2), if_pos c2]
    · rw [if_neg (fun hc => c2 (h2.mpr hc)), if_neg c2]

theorem rollbackEq_refl (s : St) : rollbackEq s s :=
  ⟨rfl, rfl, rfl, rfl, rfl, rfl, rfl, rfl, rfl, rfl, rfl, rfl, rfl, rfl⟩

theorem rollbackEq_hasProfile (s : St) :
    rollbackEq s { s with hasProfile := true } :=
  ⟨rfl, rfl, rfl, rfl, rfl, rfl, rfl, rfl, rfl, rfl, rfl, rfl, rfl, rfl⟩

/-- On any error, `orderCreate` leaves every state component except
`hasProfile` as it found it: the transaction wrapping the body is rolled
back, and the only pre-transaction mutation is profile creation. -/
theorem orderCreate_error_frame (gw : Gateway) (inp : CreateIn) (s : St)
    (e : ErrReason)
    (he : resultError (orderCreate gw inp s).result = some e) :
    rollbackEq s (orderCreate gw inp s).st := by
  rcases hout : orderCreate gw inp s with ⟨st, calls, result⟩
  rw [hout] at he
  simp only at he
  rw [orderCreate] at hout
  split at hout
  · cases hout
    exact rollbackEq_refl s
  · split at hout
    · cases hout
      exact rollbackEq_refl s
    · split at hout
      · split at hout
        · split at hout
          · cases hout
            exact rollbackEq_hasProfile s
          · cases hout
            simp [resultError] at he
        · cases hout
          exact rollbackEq_refl s
      · split at hout
        · cases hout
          exact rollbackEq_refl s
        · cases hout
          simp [resultError] at he

/-- **C1**: if any validation step or the external charge call fails
anywhere inside `OrderSerializer.create` (for example `charge_payment`
raising `PaymentAPIError`, surfaced as the wrapped `ValidationError`
`ErrReason.paymentApi`), the enclosing atomic transaction aborts in full: no
`Order` row, no `OrderLine`, no timeslot or retirement `Reservation`, no
ticket-balance debit, no membership grant and no coupon-usage increment
persists, and the failure is surfaced synchronously to the caller as a
`ValidationError` (every `ErrReason` models a `serializers.ValidationError`
raise site). -/
theorem orderCreate_failure_atomic (gw : Gateway) (inp : CreateIn) (s : St)
    (e : ErrReason)
    (he : resultError (orderCreate gw inp s).result = some e) :
    (orderCreate gw inp s).st.orders = s.orders ∧
    (orderCreate gw inp s).st.orderLines = s.orderLines ∧
    (orderCreate gw inp s).st.tsRes = s.tsRes ∧
    (orderCreate gw inp s).st.retRes = s.retRes ∧
    (orderCreate gw inp s).st.user = s.user ∧
    (orderCreate gw inp s).st.couponUsers = s.couponUsers := by
  obtain ⟨_, hu, _, _, _, _, _, hts, hrr, _, _, hcu, ho, hol⟩ :=
    orderCreate_error_frame gw inp s e he
  exact ⟨ho, hol, hts, hrr, hu, hcu⟩

theorem orderCreate_failure_atomic_witness :
    resultError (orderCreate wGwChargeFail wInpMembership wSt).result =
      some ErrReason.paymentApi ∧
    ((orderCreate wGwChargeFail wInpMembership wSt).st.orders = wSt.orders ∧
     (orderCreate wGwChargeFail wInpMembership wSt).st.orderLines = wSt.orderLines ∧
     (orderCreate wGwChargeFail wInpMembership wSt).st.tsRes = wSt.tsRes ∧
     (orderCreate wGwChargeFail wInpMembership wSt).st.retRes = wSt.retRes ∧
     (orderCreate wGwChargeFail wInpMembership wSt).st.user = wSt.user ∧
     (orderCreate wGwChargeFail wInpMembership wSt).st.couponUsers = wSt.couponUsers) :=
  ⟨by decide,
   orderCreate_failure_atomic wGwChargeFail wInpMembership wSt
     ErrReason.paymentApi (by decide)⟩

/-- **C10**: for a timeslot order line, the ticket-sufficiency precondition
compares the timeslot's `price` to the user's ticket balance (failing when
`price > tickets`), but on success exactly one ticket is debited, regardless
of the timeslot's price or the line's quantity (the line `row` below carries
an arbitrary quantity). -/
theorem timeslot_ticket_check_and_debit (s : St) (row : ValidLine)
    (ts : TimeslotP) (hts : s.timeslots.lookup row.objId = some ts) :
    (ts.price > s.user.tickets →
      processTimeslotLine s row = .error .notEnoughTickets) ∧
    (∀ s', processTimeslotLine s row = .ok s' →
      s'.user.tickets = s.user.tickets - 1) := by
  constructor
  · intro hp
    simp only [processTimeslotLine, hts]
    rw [if_pos hp]
  · intro s' hok
    simp only [processTimeslotLine, hts] at hok
    split at hok
    · exact absurd hok (by simp)
    · split at hok
      · exact absurd hok (by simp)
      · split at hok
        · split at hok
          · cases hok
            rfl
          · exact absurd hok (by simp)
        · exact absurd hok (by simp)

theorem timeslot_ticket_check_and_debit_witness :
    wSt.timeslots.lookup 10 = some ⟨1, some 2⟩ ∧
    processTimeslotLine wSt wTsLine = .ok wTsOut ∧
    wTsOut.user.tickets = wSt.user.tickets - 1 :=
  ⟨by decide, by decide,
   (timeslot_ticket_check_and_debit wSt wTsLine ⟨1, some 2⟩ (by decide)).2
     wTsOut (by decide)⟩

/-- `value_off` holds exactly when the value that `update` persists is
truthy. -/
theorem valueOffB_iff (iv nv : Option ℚ) :
    valueOffB iv nv = pyTruthyQ (updatedField iv nv) := by
  cases nv with
  | none =>
    cases hv : pyTruthyQ iv <;>
      simp [valueOffB, updatedField, pyTruthyQ, pyNeZeroQ, hv]
  | some v =>
    by_cases hv : v = 0
    · subst hv
      simp [valueOffB, updatedField, pyTruthyQ, pyNeZeroQ]
    · cases hi : pyTruthyQ iv <;>
        simp [valueOffB, updatedField, pyTruthyQ, pyNeZeroQ, hv, hi]

/-- `percent_off` holds exactly when the percentage that `update` persists
is truthy. -/
theorem percentOffB_iff (ip np : Option ℤ) :
    percentOffB ip np = pyTruthyZ (updatedField ip np) := by
  cases np with
  | none =>
    cases hv : pyTruthyZ ip <;>
      simp [percentOffB, updatedField, pyTruthyZ, pyNeZeroZ, hv]
  | some v =>
    by_cases hv : v = 0
    · subst hv
      simp [percentOffB, updatedField, pyTruthyZ, pyNeZeroZ]
    · cases hi : pyTruthyZ ip <;>
        simp [percentOffB, updatedField, pyTruthyZ, pyNeZeroZ, hv, hi]

/-- **C8**: a coupon create or update request in which both a discount
value and a discount percentage are set is rejected with a validation error
in all cases, so a persisted coupon always has exactly one of
{absolute value, percent_off} set (truthy); the exclusivity is enforced by
`CouponSerializer.validate` and `CouponSerializer.update`, i.e. at
create/update time, not at redemption time (`couponStep`, the redemption
path, never inspects both fields). -/
theorem coupon_value_percent_exclusive :
    (∀ v p isPatch, pyTruthyQ v = true → pyTruthyZ p = true →
      couponValidate v p isPatch = .error .couponBothSet) ∧
    (∀ v p, couponValidate v p false = .ok () →
      (pyTruthyQ v = true ↔ ¬pyTruthyZ p = true)) ∧
    (∀ iv ip nv np isPatch r, couponUpdateFlow iv ip nv np isPatch = .ok r →
      (pyTruthyQ r.1 = true ↔ ¬pyTruthyZ r.2 = true)) := by
  refine ⟨?_, ?_, ?_⟩
  · intro v p isPatch hv hp
    simp [couponValidate, hv, hp]
  · intro v p h
    by_cases hv : pyTruthyQ v = true <;> by_cases hp : pyTruthyZ p = true
    · simp [couponValidate, hv, hp] at h
    · simp [hv, hp]
    · simp [hv, hp]
    · simp [couponValidate, hv, hp] at h
  · intro iv ip nv np isPatch r h
    rw [couponUpdateFlow] at h
    cases hval : couponValidate nv np isPatch with
    | error e =>
      rw [hval] at h
      exact absurd h (by simp)
    | ok u =>
      rw [hval] at h
      rw [couponUpdate] at h
      by_cases h1 : valueOffB iv nv = true ∧ percentOffB ip np = true
      · rw [if_pos h1] at h
        exact absurd h (by simp)
      · rw [if_neg h1] at h
        by_cases h2 : ¬valueOffB iv nv = true ∧ ¬percentOffB ip np = true
        · rw [if_pos h2] at h
          exact absurd h (by simp)
        · rw [if_neg h2] at h
          cases h
          rw [valueOffB_iff] at h1 h2
          rw [percentOffB_iff] at h1 h2
          constructor
          · intro ha hb
            exact h1 ⟨ha, hb⟩
          · intro hb
            by_contra ha
            exact h2 ⟨ha, hb⟩

theorem coupon_value_percent_exclusive_witness :
    pyTruthyQ (some 5) = true ∧ pyTruthyZ (some 10) = true ∧
    couponValidate (some 5) (some 10) false = .error .couponBothSet :=
  ⟨by decide, by decide,
   coupon_value_percent_exclusive.1 (some 5) (some 10) false
     (by decide) (by decide)⟩

/-- The counter returned by the retry loop never exceeds 100. -/
theorem genLoopAux_le (gen : ℕ → String) (used : List String) :
    ∀ fuel code n, fuel + n = 100 →
      (genLoopAux gen used fuel code n).2 ≤ 100 := by
  intro fuel
  induction fuel with
  | zero =>
    intro code n h
    simp only [genLoopAux]
    omega
  | succ f ih =>
    intro code n h
    rw [genLoopAux]
    by_cases hb : badCode used code = true ∧ n < 100
    · rw [if_pos hb]
      exact ih _ _ (by omega)
    · rw [if_neg hb]
      omega

/-- The retry loop's counter reaches 100 exactly when the starting code and
every generated code `gen n, …, gen 98` were blank-or-colliding (so that a
100th generation happened). -/
theorem genLoopAux_snd_eq_100 (gen : ℕ → String) (used : List String) :
    ∀ fuel code n, fuel + n = 100 →
      ((genLoopAux gen used fuel code n).2 = 100 ↔
        (fuel = 0 ∨ (badCode used code = true ∧
          ∀ i, n ≤ i → i ≤ 98 → badCode used (gen i) = true))) := by
  intro fuel
  induction fuel with
  | zero =>
    intro code n h
    have hn : n = 100 := by omega
    subst hn
    simp [genLoopAux]
  | succ f ih =>
    intro code n h
    rw [genLoopAux]
    by_cases hb : badCode used code = true ∧ n < 100
    · rw [if_pos hb, ih (gen n) (n + 1) (by omega)]
      constructor
      · rintro (hf | ⟨hg, hrest⟩)
        · refine Or.inr ⟨hb.1, fun i hni hi => ?_⟩
          omega
        · refine Or.inr ⟨hb.1, fun i hni hi => ?_⟩
          rcases Nat.eq_or_lt_of_le hni with rfl | hlt
          · exact hg
          · exact hrest i (by omega) hi
      · rintro (hf | ⟨hc, hall⟩)
        · omega
        · by_cases hf0 : f = 0
          · exact Or.inl hf0
          · exact Or.inr ⟨hall n (le_refl n) (by omega),
              fun i hni hi => hall i (by omega) hi⟩
    · rw [if_neg hb]
      simp only []
      constructor
      · intro hn
        omega
      · rintro (hf | ⟨hc, _⟩)
        · omega
        · exact absurd ⟨hc, by omega⟩ hb

/-- When the retry loop stops short of 100 generations, the code it settled
on is acceptable: non-blank and not among the existing codes. -/
theorem genLoopAux_settled (gen : ℕ → String) (used : List String) :
    ∀ fuel code n, fuel + n = 100 →
      (genLoopAux gen used fuel code n).2 ≠ 100 →
      badCode used (genLoopAux gen used fuel code n).1 = false := by
  intro fuel
  induction fuel with
  | zero =>
    intro code n h hne
    simp only [genLoopAux] at hne ⊢
    omega
  | succ f ih =>
    intro code n h hne
    rw [genLoopAux] at hne ⊢
    by_cases hb : badCode used code = true ∧ n < 100
    · rw [if_pos hb] at hne ⊢
      exact ih _ _ (by omega) hne
    · rw [if_neg hb] at hne ⊢
      rcases Bool.eq_false_or_eq_true (badCode used code) with hc | hc
      · exact absurd ⟨hc, by omega⟩ hb
      · exact hc

/-- **C9** (amended): `CouponSerializer.create` retries random 8-character
code generation up to 100 times; the permanent `ValidationError` is raised
if and only if the supplied code was absent/colliding and the first 99
generated codes all collided (a 100th code is then generated but discarded
unexamined, even when it is itself unused); otherwise the coupon is created
with a code that is non-blank and not present among existing coupon codes. -/
theorem coupon_code_generation (provided : String) (used : List String)
    (gen : ℕ → String) :
    (couponCreateCode provided used gen = .error .codesExhausted ↔
      (badCode used provided = true ∧
        ∀ i, i ≤ 98 → badCode used (gen i) = true)) ∧
    (∀ c, couponCreateCode provided used gen = .ok c →
      c ∉ used ∧ c ≠ "") := by
  have hchar := genLoopAux_snd_eq_100 gen used 100 provided 0 (by omega)
  constructor
  · simp only [couponCreateCode, genLoop, Nat.sub_zero]
    by_cases hge : (genLoopAux gen used 100 provided 0).2 ≥ 100
    · rw [if_pos hge]
      have h100 : (genLoopAux gen used 100 provided 0).2 = 100 := by
        have := genLoopAux_le gen used 100 provided 0 (by omega)
        omega
      rcases hchar.mp h100 with hf | ⟨hc, hall⟩
      · omega
      · constructor
        · intro _
          exact ⟨hc, fun i hi => hall i (by omega) hi⟩
        · intro _
          rfl
    · rw [if_neg hge]
      constructor
      · intro h
        exact absurd h (by simp)
      · intro ⟨hc, hall⟩
        have h100 := hchar.mpr (Or.inr ⟨hc, fun i _ hi => hall i hi⟩)
        omega
  · intro c h
    simp only [couponCreateCode, genLoop, Nat.sub_zero] at h
    by_cases hge : (genLoopAux gen used 100 provided 0).2 ≥ 100
    · rw [if_pos hge] at h
      exact absurd h (by simp)
    · rw [if_neg hge] at h
      have hset := genLoopAux_settled gen used 100 provided 0 (by omega)
        (by omega)
      have hc : c = (genLoopAux gen used 100 provided 0).1 :=
        (Except.ok.inj h).symm
      rw [hc]
      rw [badCode] at hset
      simp only [decide_eq_false_iff_not] at hset
      push_neg at hset
      exact ⟨hset.2, hset.1⟩

/-- Counterexample to **C9** as stated: with no supplied code, one existing
coupon code `"A"`, and a random stream whose first 99 draws collide with
`"A"` but whose 100th draw `"B"` is unused, the create call still raises the
permanent `ValidationError` — although the retry budget of 100 attempts
produced an unused code, i.e. it was *not* "exhausted without settling on a
code unused by any existing coupon".  So "raises if and only if the budget
is exhausted without settling on an unused code" is false. -/
theorem coupon_code_retry_counterexample :
    couponCreateCode "" ["A"] wGen99 = .error .codesExhausted ∧
    badCode ["A"] (wGen99 99) = false := by
  constructor
  · decide
  · decide

theorem coupon_code_generation_witness :
    ("FRESH" : String) ∉ (["A"] : List String) ∧ ("FRESH" : String) ≠ "" :=
  (coupon_code_generation "FRESH" ["A"] wGen99).2 "FRESH" (by decide)

/-- A validated line keeps its submitted content type and object id. -/
theorem checkLine_shape {s : St} {l : LineData} {v : ValidLine}
    (h : checkLine s l = .ok v) : v.ctype = l.ctype ∧ v.objId = l.objId := by
  rcases l with ⟨ct, oid, q⟩
  cases ct <;> simp only [checkLine] at h <;> (repeat' split at h) <;>
    (cases h <;> exact ⟨rfl, rfl⟩)

/-- Validation preserves the list of (content type, object id) pairs. -/
theorem validateLines_shape {s : St} :
    ∀ {lines rows}, validateLines s lines = .ok rows →
      rows.map (fun v => (v.ctype, v.objId)) =
        lines.map (fun l => (l.ctype, l.objId)) := by
  intro lines
  induction lines with
  | nil =>
    intro rows h
    simp only [validateLines] at h
    cases h
    rfl
  | cons l ls ih =>
    intro rows h
    simp only [validateLines] at h
    cases hc : checkLine s l with
    | error e =>
      rw [hc] at h
      exact absurd h (by simp)
    | ok v =>
      rw [hc] at h
      cases hr : validateLines s ls with
      | error e =>
        rw [hr] at h
        exact absurd h (by simp)
      | ok vs =>
        rw [hr] at h
        cases h
        obtain ⟨h1, h2⟩ := checkLine_shape hc
        simp [h1, h2, ih hr]

/-- A successful coupon application only touches `couponUsers` and
`orderLines`. -/
theorem couponStep_shape {s s' : St} {oid : ℕ} {cop : Option CouponRow}
    (h : couponStep s oid cop = .ok s') :
    ∃ cu ol, s' = { s with couponUsers := cu, orderLines := ol } := by
  cases cop with
  | none =>
    simp only [couponStep] at h
    cases h
    exact ⟨s.couponUsers, s.orderLines, rfl⟩
  | some c =>
    simp only [couponStep] at h
    split at h
    · exact absurd h (by simp)
    · split at h
      · exact absurd h (by simp)
      · split at h
        · exact absurd h (by simp)
        · cases h
          exact ⟨_, _, rfl⟩

/-- A successful membership block only touches the user's `membership` and
`membership_end`. -/
theorem processMembership_shape {today : ℤ} {memRows : List ValidLine}
    {s s' : St} (h : processMembership today memRows s = .ok s') :
    ∃ m e, s' = { s with user := { s.user with
      membership := m, membershipEnd := e } } := by
  cases memRows with
  | nil =>
    simp only [processMembership] at h
    cases h
    exact ⟨s.user.membership, s.user.membershipEnd, rfl⟩
  | cons m rest =>
    simp only [processMembership] at h
    split at h
    · exact absurd h (by simp)
    · split at h
      · exact absurd h (by simp)
      · cases h
        exact ⟨_, _, rfl⟩

/-- A successful package block only touches the user's ticket balance. -/
theorem processPackages_shape :
    ∀ {rows : List ValidLine} {s s' : St},
      processPackages rows s = .ok s' →
      ∃ t, s' = { s with user := { s.user with tickets := t } } := by
  intro rows
  induction rows with
  | nil =>
    intro s s' h
    simp only [processPackages] at h
    cases h
    exact ⟨s.user.tickets, rfl⟩
  | cons p rest ih =>
    intro s s' h
    simp only [processPackages] at h
    split at h
    · exact absurd h (by simp)
    · obtain ⟨t, ht⟩ := ih h
      exact ⟨t, ht⟩

/-- A successfully processed timeslot line appends exactly one active
reservation for the requesting user and debits exactly one ticket. -/
theorem processTimeslotLine_effect {s s' : St} {row : ValidLine}
    (h : processTimeslotLine s row = .ok s') :
    s' = { s with tsRes := s.tsRes ++ [⟨s.uid, row.objId, true⟩],
                  user := { s.user with tickets := s.user.tickets - 1 } } := by
  simp only [processTimeslotLine] at h
  split at h
  · exact absurd h (by simp)
  · split at h
    · exact absurd h (by simp)
    · split at h
      · exact absurd h (by simp)
      · split at h
        · split at h
          · cases h
            rfl
          · exact absurd h (by simp)
        · exact absurd h (by simp)

/-- A successful timeslot block appends one reservation per line and debits
one ticket per line, touching nothing else. -/
theorem processTimeslots_effect :
    ∀ {rows : List ValidLine} {s s' : St},
      processTimeslots rows s = .ok s' →
      ∃ added : List TsRes, added.length = rows.length ∧
        s' = { s with tsRes := s.tsRes ++ added,
                      user := { s.user with
                        tickets := s.user.tickets - rows.length } } := by
  intro rows
  induction rows with
  | nil =>
    intro s s' h
    simp only [processTimeslots] at h
    cases h
    exact ⟨[], rfl, by simp⟩
  | cons r rest ih =>
    intro s s' h
    simp only [processTimeslots] at h
    cases hline : processTimeslotLine s r with
    | error e =>
      rw [hline] at h
      exact absurd h (by simp)
    | ok s1 =>
      rw [hline] at h
      have h1 := processTimeslotLine_effect hline
      obtain ⟨added, hlen, heq⟩ := ih h
      refine ⟨⟨s.uid, r.objId, true⟩ :: added, by simp [hlen], ?_⟩
      rw [heq, h1]
      simp only [List.append_assoc, List.singleton_append, List.length_cons]
      congr 2
      push_cast
      ring

/-- A successfully processed retirement line: the user was not already
registered, the admission condition held, and the state change is the
combined record update of `processRetirementLine`. -/
theorem processRetirementLine_effect {s s' : St} {row : ValidLine}
    (h : processRetirementLine s row = .ok s') :
    ∃ ret, s.retirements.lookup row.objId = some ret ∧
      hasActiveRetRes s row.objId = false ∧
      ((ret.seats - totalReservations s row.objId - ret.reservedSeats > 0) ∨
        (ret.reservedSeats ≠ 0 ∧ hasNotif s row.objId = true)) ∧
      s' = { s with
        retRes := s.retRes ++ [⟨s.uid, row.objId, true⟩],
        retirements :=
          if ret.reservedSeats ≠ 0 then
            setReservedSeats s.retirements row.objId (ret.reservedSeats - 1)
          else s.retirements,
        waitQueue :=
          if s.waitQueue.filter (fun e => e.1 = s.uid ∧ e.2 = row.objId) ≠ [] then
            s.waitQueue.filter (fun e => ¬(e.1 = s.uid ∧ e.2 = row.objId))
          else s.waitQueue } := by
  simp only [processRetirementLine] at h
  split at h
  · exact absurd h (by simp)
  · rename_i ret hret
    split at h
    · exact absurd h (by simp)
    · split at h
      · rename_i hdup hcond
        cases h
        exact ⟨ret, hret, by simpa using hdup, hcond, rfl⟩
      · exact absurd h (by simp)

/-- The retirement loop appends one active reservation per line and leaves
every component other than `retRes`, `retirements` and `waitQueue`
unchanged. -/
theorem processRetirements_go_effect :
    ∀ {rows : List ValidLine} {s s' : St},
      processRetirements.go rows s = .ok s' →
      ∃ added : List RetRes, added.length = rows.length ∧
        s'.retRes = s.retRes ++ added ∧
        s'.uid = s.uid ∧ s'.user = s.user ∧ s'.tsRes = s.tsRes ∧
        s'.timeslots = s.timeslots ∧
        s'.membershipsCat = s.membershipsCat ∧
        s'.packagesCat = s.packagesCat ∧ s'.coupons = s.coupons ∧
        s'.wqNotifs = s.wqNotifs ∧ s'.couponUsers = s.couponUsers ∧
        s'.orders = s.orders ∧ s'.orderLines = s.orderLines ∧
        s'.hasProfile = s.hasProfile := by
  intro rows
  induction rows with
  | nil =>
    intro s s' h
    simp only [processRetirements.go] at h
    cases h
    exact ⟨[], rfl, by simp, rfl, rfl, rfl, rfl, rfl, rfl, rfl, rfl, rfl,
      rfl, rfl, rfl⟩
  | cons r rest ih =>
    intro s s' h
    simp only [processRetirements.go] at h
    cases hline : processRetirementLine s r with
    | error e =>
      rw [hline] at h
      exact absurd h (by simp)
    | ok s1 =>
      rw [hline] at h
      obtain ⟨ret, _, _, _, heq⟩ := processRetirementLine_effect hline
      obtain ⟨added, hlen, hretres, h3, h4, h5, h6, h7, h8, h9, h10, h11,
        h12, h13, h14⟩ := ih h
      subst heq
      refine ⟨⟨s.uid, r.objId, true⟩ :: added, by simp [hlen], ?_, h3, h4,
        h5, h6, h7, h8, h9, h10, h11, h12, h13, h14⟩
      rw [hretres]
      simp

/-- The retirement block: same as the loop, after the profile checks. -/
theorem processRetirements_effect {rows : List ValidLine} {s s' : St}
    (h : processRetirements rows s = .ok s') :
    ∃ added : List RetRes, added.length = rows.length ∧
      s'.retRes = s.retRes ++ added ∧
      s'.uid = s.uid ∧ s'.user = s.user ∧ s'.tsRes = s.tsRes ∧
      s'.timeslots = s.timeslots ∧
      s'.membershipsCat = s.membershipsCat ∧
      s'.packagesCat = s.packagesCat ∧ s'.coupons = s.coupons ∧
      s'.wqNotifs = s.wqNotifs ∧ s'.couponUsers = s.couponUsers ∧
      s'.orders = s.orders ∧ s'.orderLines = s.orderLines ∧
      s'.hasProfile = s.hasProfile := by
  cases rows with
  | nil =>
    simp only [processRetirements] at h
    cases h
    exact ⟨[], rfl, by simp, rfl, rfl, rfl, rfl, rfl, rfl, rfl, rfl, rfl,
      rfl, rfl, rfl⟩
  | cons r rest =>
    simp only [processRetirements] at h
    split at h
    · exact absurd h (by simp)
    · exact processRetirements_go_effect h

/-- Decomposition of a successful `createBody` run into its steps. -/
theorem createBody_ok_decomp {gw : Gateway} {inp : CreateIn}
    {rows : List ValidLine} {cop : Option CouponRow} {s1 s' : St}
    {info : SuccessInfo} {calls : List ExtCall}
    (h : createBody gw inp rows cop s1 = (.ok (s', info), calls)) :
    ∃ s3 s4 s5 s6,
      couponStep ({ s1 with
          orders := inp.orderId :: s1.orders,
          orderLines := s1.orderLines ++ rows.map (mkRow inp.orderId) })
        inp.orderId cop = .ok s3 ∧
      processMembership inp.today
        (rows.filter (fun r => r.ctype = CType.membership)) s3 = .ok s4 ∧
      processPackages (rows.filter (fun r => r.ctype = CType.package)) s4 =
        .ok s5 ∧
      processTimeslots (rows.filter (fun r => r.ctype = CType.timeslot)) s5 =
        .ok s6 ∧
      processRetirements (rows.filter (fun r => r.ctype = CType.retirement))
        s6 = .ok s' ∧
      chargeStep
        (¬(rows.filter (fun r => r.ctype = CType.membership)).isEmpty ∨
          ¬(rows.filter (fun r => r.ctype = CType.package)).isEmpty ∨
          ¬(rows.filter (fun r => r.ctype = CType.retirement)).isEmpty)
        inp.paymentToken inp.singleUseToken
        (quantize2 (qmul (qmul (orderTotalCost s3 inp.orderId)
          (qadd 1 inp.rate)) 100)) gw = (.ok (), calls) ∧
      info = ⟨inp.orderId,
        quantize2 (qmul (orderTotalCost s3 inp.orderId) inp.rate),
        quantize2 (qmul (qmul (orderTotalCost s3 inp.orderId)
          (qadd 1 inp.rate)) 100)⟩ := by
  simp only [createBody] at h
  split at h
  · exact absurd h (by simp)
  · rename_i s3 hs3
    split at h
    · exact absurd h (by simp)
    · rename_i s4 hs4
      split at h
      · exact absurd h (by simp)
      · rename_i s5 hs5
        split at h
        · exact absurd h (by simp)
        · rename_i s6 hs6
          split at h
          · exact absurd h (by simp)
          · rename_i s7 hs7
            split at h
            · exact absurd h (by simp)
            · rename_i u cs hcs
              rw [Prod.mk.injEq] at h
              obtain ⟨hok, hcalls⟩ := h
              have hsi := Except.ok.inj hok
              rw [Prod.mk.injEq] at hsi
              obtain ⟨hs7eq, hinfo⟩ := hsi
              subst hs7eq
              subst hcalls
              exact ⟨s3, s4, s5, s6, hs3, hs4, hs5, hs6, hs7, hcs,
                hinfo.symm⟩

/-- Decomposition of a successful `orderCreate` run. -/
theorem orderCreate_ok_decomp {gw : Gateway} {inp : CreateIn} {s : St}
    {info : SuccessInfo}
    (h : (orderCreate gw inp s).result = .ok info) :
    ∃ rows cop s1 s3 s4 s5 s6,
      validateLines s inp.lines = .ok rows ∧
      resolveCoupon s inp.coupon = .ok cop ∧
      (s1 = s ∨ s1 = { s with hasProfile := true }) ∧
      couponStep ({ s1 with
          orders := inp.orderId :: s1.orders,
          orderLines := s1.orderLines ++ rows.map (mkRow inp.orderId) })
        inp.orderId cop = .ok s3 ∧
      processMembership inp.today
        (rows.filter (fun r => r.ctype = CType.membership)) s3 = .ok s4 ∧
      processPackages (rows.filter (fun r => r.ctype = CType.package)) s4 =
        .ok s5 ∧
      processTimeslots (rows.filter (fun r => r.ctype = CType.timeslot)) s5 =
        .ok s6 ∧
      processRetirements (rows.filter (fun r => r.ctype = CType.retirement))
        s6 = .ok (orderCreate gw inp s).st ∧
      (∃ chargeCalls,
        chargeStep
          (¬(rows.filter (fun r => r.ctype = CType.membership)).isEmpty ∨
            ¬(rows.filter (fun r => r.ctype = CType.package)).isEmpty ∨
            ¬(rows.filter (fun r => r.ctype = CType.retirement)).isEmpty)
          inp.paymentToken inp.singleUseToken
          (quantize2 (qmul (qmul (orderTotalCost s3 inp.orderId)
            (qadd 1 inp.rate)) 100)) gw = (.ok (), chargeCalls) ∧
        ((orderCreate gw inp s).calls = chargeCalls ∨
          (orderCreate gw inp s).calls = .createProfile :: chargeCalls)) ∧
      info = ⟨inp.orderId,
        quantize2 (qmul (orderTotalCost s3 inp.orderId) inp.rate),
        quantize2 (qmul (qmul (orderTotalCost s3 inp.orderId)
          (qadd 1 inp.rate)) 100)⟩ := by
  rcases hout : orderCreate gw inp s with ⟨st, calls, result⟩
  rw [hout] at h
  simp only at h
  rw [orderCreate] at hout
  split at hout
  · cases hout
    exact absurd h (by simp)
  · rename_i rows hrows
    split at hout
    · cases hout
      exact absurd h (by simp)
    · rename_i cop hcop
      split at hout
      · split at hout
        · split at hout
          · rename_i e calls1 hbody
            cases hout
            exact absurd h (by simp)
          · rename_i s2 info1 calls1 hbody
            cases hout
            cases h
            obtain ⟨s3, s4, s5, s6, hs3, hs4, hs5, hs6, hs7, hcs, hinfo⟩ :=
              createBody_ok_decomp hbody
            exact ⟨rows, cop, { s with hasProfile := true }, s3, s4, s5, s6,
              hrows, hcop, Or.inr rfl, hs3, hs4, hs5, hs6, hs7,
              ⟨_, hcs, Or.inr rfl⟩, hinfo⟩
        · cases hout
          exact absurd h (by simp)
      · split at hout
        · rename_i e calls1 hbody
          cases hout
          exact absurd h (by simp)
        · rename_i s2 info1 calls1 hbody
          cases hout
          cases h
          obtain ⟨s3, s4, s5, s6, hs3, hs4, hs5, hs6, hs7, hcs, hinfo⟩ :=
            createBody_ok_decomp hbody
          exact ⟨rows, cop, s, s3, s4, s5, s6, hrows, hcop, Or.inl rfl,
            hs3, hs4, hs5, hs6, hs7, ⟨_, hcs, Or.inl rfl⟩, hinfo⟩

theorem activeTsFor_append (l1 l2 : List TsRes) (tid : ℕ) :
    activeTsFor (l1 ++ l2) tid = activeTsFor l1 tid ++ activeTsFor l2 tid := by
  simp [activeTsFor, List.filter_append]

theorem activeTsCount_append_self (l : List TsRes) (u tid : ℕ) :
    activeTsCount (l ++ [⟨u, tid, true⟩]) tid = activeTsCount l tid + 1 := by
  simp [activeTsCount, activeTsFor, List.filter_append]

theorem activeTsCount_append_other (l : List TsRes) (u tid tid' : ℕ)
    (hne : tid' ≠ tid) :
    activeTsCount (l ++ [⟨u, tid, true⟩]) tid' = activeTsCount l tid' := by
  simp [activeTsCount, activeTsFor, List.filter_append]
  intro h
  exact absurd h.symm hne

/-- The invariant depends only on the timeslot catalog and the reservation
table. -/
theorem tsInv_congr {s s' : St} (h1 : s'.timeslots = s.timeslots)
    (h2 : s'.tsRes = s.tsRes) (h : tsInv s) : tsInv s' := by
  intro tid ts hts
  rw [h2]
  exact h tid ts (h1 ▸ hts)

/-- A successfully processed timeslot line was admitted under the checks of
the source: no duplicate, a workplace present, and remaining capacity
strictly positive. -/
theorem processTimeslotLine_guard {s s' : St} {row : ValidLine}
    (h : processTimeslotLine s row = .ok s') :
    ∃ ts, s.timeslots.lookup row.objId = some ts ∧
      hasActiveTsRes s row.objId = false ∧
      ∃ seats, ts.workplaceSeats = some seats ∧
        seats - (activeTsCount s.tsRes row.objId : ℤ) > 0 := by
  simp only [processTimeslotLine] at h
  split at h
  · exact absurd h (by simp)
  · rename_i ts hts
    split at h
    · exact absurd h (by simp)
    · split at h
      · exact absurd h (by simp)
      · rename_i hdup
        split at h
        · rename_i seats hseats
          split at h
          · rename_i hcap
            exact ⟨ts, hts, by simpa using hdup, seats, hseats, hcap⟩
          · exact absurd h (by simp)
        · exact absurd h (by simp)

theorem processTimeslotLine_inv {s s' : St} {row : ValidLine}
    (h : processTimeslotLine s row = .ok s') (hinv : tsInv s) : tsInv s' := by
  obtain ⟨ts0, hts0, -, seats, hseats, hcap⟩ := processTimeslotLine_guard h
  have heff := processTimeslotLine_effect h
  subst heff
  intro tid ts hts
  simp only at hts ⊢
  by_cases htid : tid = row.objId
  · have hts' : ts = ts0 := by
      rw [htid, hts0] at hts
      exact (Option.some.inj hts).symm
    rw [htid, hts', activeTsCount_append_self, capacityOf, hseats]
    simp only [Option.getD_some]
    push_cast
    omega
  · rw [activeTsCount_append_other _ _ _ _ htid]
    exact hinv tid ts hts

theorem processTimeslots_inv :
    ∀ {rows : List ValidLine} {s s' : St},
      processTimeslots rows s = .ok s' → tsInv s → tsInv s' := by
  intro rows
  induction rows with
  | nil =>
    intro s s' h hinv
    simp only [processTimeslots] at h
    cases h
    exact hinv
  | cons r rest ih =>
    intro s s' h hinv
    simp only [processTimeslots] at h
    cases hline : processTimeslotLine s r with
    | error e =>
      rw [hline] at h
      exact absurd h (by simp)
    | ok s1 =>
      rw [hline] at h
      exact ih h (processTimeslotLine_inv hline hinv)

/-- A timeslot line whose period has no workplace is always rejected. -/
theorem processTimeslotLine_noworkplace {s : St} {row : ValidLine}
    {ts : TimeslotP} (hts : s.timeslots.lookup row.objId = some ts)
    (hw : ts.workplaceSeats = none) :
    ∃ e, processTimeslotLine s row = .error e := by
  simp only [processTimeslotLine, hts, hw]
  repeat' split
  all_goals exact ⟨_, rfl⟩

theorem processTimeslots_noworkplace :
    ∀ {rows : List ValidLine} {s : St},
      (∃ row ∈ rows, ∃ ts, s.timeslots.lookup row.objId = some ts ∧
        ts.workplaceSeats = none) →
      ∃ e, processTimeslots rows s = .error e := by
  intro rows
  induction rows with
  | nil =>
    rintro s ⟨row, hrow, -⟩
    exact absurd hrow (List.not_mem_nil row)
  | cons r rest ih =>
    rintro s ⟨row, hrow, ts, hts, hw⟩
    simp only [processTimeslots]
    rcases List.mem_cons.mp hrow with rfl | hmem
    · obtain ⟨e, he⟩ := processTimeslotLine_noworkplace hts hw
      rw [he]
      exact ⟨e, rfl⟩
    · cases hline : processTimeslotLine s r with
      | error e =>
        exact ⟨e, rfl⟩
      | ok s1 =>
        have heff := processTimeslotLine_effect hline
        subst heff
        exact ih ⟨row, hmem, ts, hts, hw⟩

/-- A line targeting a resource on which the user already holds an active
reservation is always rejected (with the not-enough-tickets error when the
ticket check fires first, else with the duplicate error). -/
theorem processTimeslotLine_dup {s : St} {row : ValidLine}
    (hdup : hasActiveTsRes s row.objId = true) :
    ∃ e, processTimeslotLine s row = .error e := by
  simp only [processTimeslotLine]
  repeat' split
  all_goals exact ⟨_, rfl⟩

theorem hasActiveTsRes_mono {s s1 : St} {tid : ℕ} {x : TsRes}
    (h1 : s1.tsRes = s.tsRes ++ [x]) (h2 : s1.uid = s.uid)
    (h : hasActiveTsRes s tid = true) : hasActiveTsRes s1 tid = true := by
  rw [hasActiveTsRes, h1, h2, activeTsFor_append, List.any_append]
  rw [hasActiveTsRes] at h
  simp [h]

theorem processTimeslots_dup :
    ∀ {rows : List ValidLine} {s : St},
      (∃ row ∈ rows, hasActiveTsRes s row.objId = true) →
      ∃ e, processTimeslots rows s = .error e := by
  intro rows
  induction rows with
  | nil =>
    rintro s ⟨row, hrow, -⟩
    exact absurd hrow (List.not_mem_nil row)
  | cons r rest ih =>
    rintro s ⟨row, hrow, hdup⟩
    simp only [processTimeslots]
    rcases List.mem_cons.mp hrow with rfl | hmem
    · obtain ⟨e, he⟩ := processTimeslotLine_dup hdup
      rw [he]
      exact ⟨e, rfl⟩
    · cases hline : processTimeslotLine s r with
      | error e =>
        exact ⟨e, rfl⟩
      | ok s1 =>
        have heff := processTimeslotLine_effect hline
        exact ih ⟨row, hmem,
          hasActiveTsRes_mono (by rw [heff]) (by rw [heff]) hdup⟩

theorem activeRetFor_append (l1 l2 : List RetRes) (rid : ℕ) :
    activeRetFor (l1 ++ l2) rid = activeRetFor l1 rid ++ activeRetFor l2 rid := by
  simp [activeRetFor, List.filter_append]

theorem hasActiveRetRes_mono {s s1 : St} {rid : ℕ} {x : RetRes}
    (h1 : s1.retRes = s.retRes ++ [x]) (h2 : s1.uid = s.uid)
    (h : hasActiveRetRes s rid = true) : hasActiveRetRes s1 rid = true := by
  rw [hasActiveRetRes, h1, h2, activeRetFor_append, List.any_append]
  rw [hasActiveRetRes] at h
  simp [h]

theorem processRetirementLine_dup {s : St} {row : ValidLine}
    (hdup : hasActiveRetRes s row.objId = true) :
    ∃ e, processRetirementLine s row = .error e := by
  simp only [processRetirementLine]
  repeat' split
  all_goals exact ⟨_, rfl⟩

theorem processRetirements_go_dup :
    ∀ {rows : List ValidLine} {s : St},
      (∃ row ∈ rows, hasActiveRetRes s row.objId = true) →
      ∃ e, processRetirements.go rows s = .error e := by
  intro rows
  induction rows with
  | nil =>
    rintro s ⟨row, hrow, -⟩
    exact absurd hrow (List.not_mem_nil row)
  | cons r rest ih =>
    rintro s ⟨row, hrow, hdup⟩
    simp only [processRetirements.go]
    rcases List.mem_cons.mp hrow with rfl | hmem
    · obtain ⟨e, he⟩ := processRetirementLine_dup hdup
      rw [he]
      exact ⟨e, rfl⟩
    · cases hline : processRetirementLine s r with
      | error e =>
        exact ⟨e, rfl⟩
      | ok s1 =>
        obtain ⟨ret, -, -, -, heff⟩ := processRetirementLine_effect hline
        exact ih ⟨row, hmem,
          hasActiveRetRes_mono (by rw [heff]) (by rw [heff]) hdup⟩

theorem processRetirements_dup {rows : List ValidLine} {s : St}
    (hdup : ∃ row ∈ rows, hasActiveRetRes s row.objId = true) :
    ∃ e, processRetirements rows s = .error e := by
  cases rows with
  | nil =>
    obtain ⟨row, hrow, -⟩ := hdup
    exact absurd hrow (List.not_mem_nil row)
  | cons r rest =>
    simp only [processRetirements]
    split
    · exact ⟨_, rfl⟩
    · exact processRetirements_go_dup hdup

/-- A line of a given content type induces a validated row of the same type
and object id. -/
theorem exists_row_of_line {s : St} {lines : List LineData}
    {rows : List ValidLine} (hv : validateLines s lines = .ok rows)
    {c : CType} {l : LineData} (hl : l ∈ lines) (hc : l.ctype = c) :
    ∃ row ∈ rows.filter (fun r => r.ctype = c), row.objId = l.objId := by
  have hmap := validateLines_shape hv
  have hmem : (l.ctype, l.objId) ∈ rows.map (fun v => (v.ctype, v.objId)) := by
    rw [hmap]
    exact List.mem_map_of_mem _ hl
  obtain ⟨row, hrow, heq⟩ := List.mem_map.mp hmem
  have h1 : row.ctype = l.ctype := congrArg Prod.fst heq
  have h2 : row.objId = l.objId := congrArg Prod.snd heq
  exact ⟨row, List.mem_filter.mpr ⟨hrow, by simp [h1, hc]⟩, h2⟩

/-- **C2**: a timeslot `Reservation` is created only when the period has a
workplace and the workplace's seat count minus the count of active
reservations is strictly positive (`processTimeslotLine_guard`); an order
containing a timeslot line whose period has no workplace (capacity 0) is
rejected with an error; and after any `orderCreate` call — committed or
rolled back — the count of active reservations on a timeslot never exceeds
its capacity, provided it did not to begin with. -/
theorem timeslot_capacity_invariant (gw : Gateway) (inp : CreateIn) (s : St)
    (hinv : tsInv s) :
    tsInv (orderCreate gw inp s).st ∧
    ((∃ l ∈ inp.lines, l.ctype = CType.timeslot ∧
        ∃ ts, s.timeslots.lookup l.objId = some ts ∧
          ts.workplaceSeats = none) →
      ∃ e, resultError (orderCreate gw inp s).result = some e) := by
  constructor
  · cases hres : (orderCreate gw inp s).result with
    | error e =>
      obtain ⟨-, -, hts, -, -, -, -, htsRes, -, -, -, -, -, -⟩ :=
        orderCreate_error_frame gw inp s e (by rw [hres]; rfl)
      exact tsInv_congr hts htsRes hinv
    | ok info =>
      obtain ⟨rows, cop, s1, s3, s4, s5, s6, hrows, hcop, hs1, hs3, hs4,
        hs5, hs6, hs7, -, -⟩ := orderCreate_ok_decomp hres
      obtain ⟨cu, ol, e3⟩ := couponStep_shape hs3
      obtain ⟨m, me, e4⟩ := processMembership_shape hs4
      obtain ⟨t, e5⟩ := processPackages_shape hs5
      subst e3 e4 e5
      obtain ⟨addedR, -, -, -, -, htsRes7, htimes7, -, -, -, -, -, -, -,
        -⟩ := processRetirements_effect hs7
      have hinv6 : tsInv s6 := by
        apply processTimeslots_inv hs6
        rcases hs1 with rfl | rfl
        · exact tsInv_congr rfl rfl hinv
        · exact tsInv_congr rfl rfl hinv
      exact tsInv_congr htimes7 htsRes7 hinv6
  · rintro ⟨l, hl, hct, ts, hts, hw⟩
    cases hres : (orderCreate gw inp s).result with
    | error e =>
      exact ⟨e, rfl⟩
    | ok info =>
      exfalso
      obtain ⟨rows, cop, s1, s3, s4, s5, s6, hrows, hcop, hs1, hs3, hs4,
        hs5, hs6, hs7, -, -⟩ := orderCreate_ok_decomp hres
      obtain ⟨row, hrowmem, hobj⟩ := exists_row_of_line hrows hl hct
      obtain ⟨cu, ol, e3⟩ := couponStep_shape hs3
      obtain ⟨m, me, e4⟩ := processMembership_shape hs4
      obtain ⟨t, e5⟩ := processPackages_shape hs5
      have h5ts : s5.timeslots = s.timeslots := by
        rw [e5, e4, e3]
        rcases hs1 with rfl | rfl <;> rfl
      obtain ⟨e, he⟩ := processTimeslots_noworkplace
        ⟨row, hrowmem, ts, by rw [h5ts, hobj]; exact hts, hw⟩
      rw [hs6] at he
      exact absurd he (by simp)

theorem timeslot_capacity_invariant_witness :
    tsInv wSt ∧ tsInv (orderCreate wGwOk wInpTs wSt).st := by
  have hinv : tsInv wSt := by
    intro tid ts h
    simp only [wSt, List.lookup] at h
    split at h
    · cases h
      simp [activeTsCount, activeTsFor, capacityOf, wSt]
    · exact absurd h (by simp)
  exact ⟨hinv, (timeslot_capacity_invariant wGwOk wInpTs wSt hinv).1⟩

theorem pairInv_congr {s s' : St} (h1 : s'.tsRes = s.tsRes)
    (h2 : s'.retRes = s.retRes) (hp : pairInv s) : pairInv s' := by
  constructor
  · intro u tid
    rw [tsPairCount, h1]
    exact hp.1 u tid
  · intro u rid
    rw [retPairCount, h2]
    exact hp.2 u rid

theorem tsPairCount_append (l : List TsRes) (u tid : ℕ) (x : TsRes) :
    tsPairCount (l ++ [x]) u tid =
      tsPairCount l u tid +
        (if x.timeslot = tid ∧ x.isActive = true ∧ x.user = u then 1
         else 0) := by
  rw [tsPairCount, tsPairCount, activeTsFor, activeTsFor, List.filter_append,
    List.filter_append]
  rcases x with ⟨xu, xt, xa⟩
  by_cases h1 : xt = tid <;> by_cases h3 : xu = u <;> cases xa <;>
    simp [h1, h3]

theorem retPairCount_append (l : List RetRes) (u rid : ℕ) (x : RetRes) :
    retPairCount (l ++ [x]) u rid =
      retPairCount l u rid +
        (if x.retirement = rid ∧ x.isActive = true ∧ x.user = u then 1
         else 0) := by
  rw [retPairCount, retPairCount, activeRetFor, activeRetFor,
    List.filter_append, List.filter_append]
  rcases x with ⟨xu, xt, xa⟩
  by_cases h1 : xt = rid <;> by_cases h3 : xu = u <;> cases xa <;>
    simp [h1, h3]

theorem tsPairCount_zero_of_not_active {s : St} {tid : ℕ}
    (h : hasActiveTsRes s tid = false) :
    tsPairCount s.tsRes s.uid tid = 0 := by
  rw [hasActiveTsRes] at h
  simp only [List.any_eq_false, decide_eq_true_eq] at h
  rw [tsPairCount, List.length_eq_zero, List.filter_eq_nil_iff]
  intro r hr
  simpa using h r hr

theorem retPairCount_zero_of_not_active {s : St} {rid : ℕ}
    (h : hasActiveRetRes s rid = false) :
    retPairCount s.retRes s.uid rid = 0 := by
  rw [hasActiveRetRes] at h
  simp only [List.any_eq_false, decide_eq_true_eq] at h
  rw [retPairCount, List.length_eq_zero, List.filter_eq_nil_iff]
  intro r hr
  simpa using h r hr

theorem processTimeslotLine_pairInv {s s' : St} {row : ValidLine}
    (h : processTimeslotLine s row = .ok s') (hp : pairInv s) : pairInv s' := by
  obtain ⟨ts0, -, hdup, -⟩ := processTimeslotLine_guard h
  have heff := processTimeslotLine_effect h
  subst heff
  constructor
  · intro u tid
    show tsPairCount (s.tsRes ++ [⟨s.uid, row.objId, true⟩]) u tid ≤ 1
    rw [tsPairCount_append]
    split
    · rename_i hc
      obtain ⟨h1, -, h3⟩ := hc
      have hz : tsPairCount s.tsRes s.uid row.objId = 0 :=
        tsPairCount_zero_of_not_active hdup
      rw [← h3, ← h1]
      simp only at hz ⊢
      omega
    · have := hp.1 u tid
      omega
  · intro u rid
    exact hp.2 u rid

theorem processTimeslots_pairInv :
    ∀ {rows : List ValidLine} {s s' : St},
      processTimeslots rows s = .ok s' → pairInv s → pairInv s' := by
  intro rows
  induction rows with
  | nil =>
    intro s s' h hp
    simp only [processTimeslots] at h
    cases h
    exact hp
  | cons r rest ih =>
    intro s s' h hp
    simp only [processTimeslots] at h
    cases hline : processTimeslotLine s r with
    | error e =>
      rw [hline] at h
      exact absurd h (by simp)
    | ok s1 =>
      rw [hline] at h
      exact ih h (processTimeslotLine_pairInv hline hp)

theorem processRetirementLine_pairInv {s s' : St} {row : ValidLine}
    (h : processRetirementLine s row = .ok s') (hp : pairInv s) : pairInv s' := by
  obtain ⟨ret, -, hdup, -, heff⟩ := processRetirementLine_effect h
  subst heff
  constructor
  · intro u tid
    exact hp.1 u tid
  · intro u rid
    show retPairCount (s.retRes ++ [⟨s.uid, row.objId, true⟩]) u rid ≤ 1
    rw [retPairCount_append]
    split
    · rename_i hc
      obtain ⟨h1, -, h3⟩ := hc
      have hz : retPairCount s.retRes s.uid row.objId = 0 :=
        retPairCount_zero_of_not_active hdup
      rw [← h3, ← h1]
      simp only at hz ⊢
      omega
    · have := hp.2 u rid
      omega

theorem processRetirements_go_pairInv :
    ∀ {rows : List ValidLine} {s s' : St},
      processRetirements.go rows s = .ok s' → pairInv s → pairInv s' := by
  intro rows
  induction rows with
  | nil =>
    intro s s' h hp
    simp only [processRetirements.go] at h
    cases h
    exact hp
  | cons r rest ih =>
    intro s s' h hp
    simp only [processRetirements.go] at h
    cases hline : processRetirementLine s r with
    | error e =>
      rw [hline] at h
      exact absurd h (by simp)
    | ok s1 =>
      rw [hline] at h
      exact ih h (processRetirementLine_pairInv hline hp)

theorem processRetirements_pairInv {rows : List ValidLine} {s s' : St}
    (h : processRetirements rows s = .ok s') (hp : pairInv s) : pairInv s' := by
  cases rows with
  | nil =>
    simp only [processRetirements] at h
    cases h
    exact hp
  | cons r rest =>
    simp only [processRetirements] at h
    split at h
    · exact absurd h (by simp)
    · exact processRetirements_go_pairInv h hp

/-- **C6** (amended): an order containing a line for a capacity resource
(timeslot or retirement) on which the requesting user already holds an
active reservation always fails and never creates a second reservation (the
whole transaction rolls back); the error is the duplicate-registration
error when that check is the first to fire, but can be an earlier
validation error instead — for timeslots, the ticket-sufficiency check runs
first, so a duplicate with too few tickets fails with the not-enough-tickets
error (see the counterexample).  Moreover every `orderCreate` call preserves
at-most-one-active-reservation-per-(user, resource). -/
theorem duplicate_reservation_rejected (gw : Gateway) (inp : CreateIn)
    (s : St) :
    ((∃ l ∈ inp.lines,
        (l.ctype = CType.timeslot ∧ hasActiveTsRes s l.objId = true) ∨
        (l.ctype = CType.retirement ∧ hasActiveRetRes s l.objId = true)) →
      (∃ e, resultError (orderCreate gw inp s).result = some e) ∧
      rollbackEq s (orderCreate gw inp s).st) ∧
    (pairInv s → pairInv (orderCreate gw inp s).st) := by
  constructor
  · rintro ⟨l, hl, hdup⟩
    have herr : ∃ e, resultError (orderCreate gw inp s).result = some e := by
      cases hres : (orderCreate gw inp s).result with
      | error e => exact ⟨e, rfl⟩
      | ok info =>
        exfalso
        obtain ⟨rows, cop, s1, s3, s4, s5, s6, hrows, hcop, hs1, hs3, hs4,
          hs5, hs6, hs7, -, -⟩ := orderCreate_ok_decomp hres
        obtain ⟨cu, ol, e3⟩ := couponStep_shape hs3
        obtain ⟨m, me, e4⟩ := processMembership_shape hs4
        obtain ⟨t, e5⟩ := processPackages_shape hs5
        have h5ts : s5.tsRes = s.tsRes := by
          rw [e5, e4, e3]
          rcases hs1 with rfl | rfl <;> rfl
        have h5uid : s5.uid = s.uid := by
          rw [e5, e4, e3]
          rcases hs1 with rfl | rfl <;> rfl
        rcases hdup with ⟨hct, hdup⟩ | ⟨hct, hdup⟩
        · obtain ⟨row, hrowmem, hobj⟩ := exists_row_of_line hrows hl hct
          obtain ⟨e, he⟩ := processTimeslots_dup ⟨row, hrowmem, by
            rw [hasActiveTsRes, h5ts, h5uid, hobj]
            rw [hasActiveTsRes] at hdup
            exact hdup⟩
          rw [hs6] at he
          exact absurd he (by simp)
        · obtain ⟨row, hrowmem, hobj⟩ := exists_row_of_line hrows hl hct
          obtain ⟨added6, -, e6⟩ := processTimeslots_effect hs6
          have h6ret : s6.retRes = s.retRes := by
            rw [e6, e5, e4, e3]
            rcases hs1 with rfl | rfl <;> rfl
          have h6uid : s6.uid = s.uid := by
            rw [e6, e5, e4, e3]
            rcases hs1 with rfl | rfl <;> rfl
          obtain ⟨e, he⟩ := processRetirements_dup ⟨row, hrowmem, by
            rw [hasActiveRetRes, h6ret, h6uid, hobj]
            rw [hasActiveRetRes] at hdup
            exact hdup⟩
          rw [hs7] at he
          exact absurd he (by simp)
    obtain ⟨e, he⟩ := herr
    exact ⟨⟨e, he⟩, orderCreate_error_frame gw inp s e he⟩
  · intro hp
    cases hres : (orderCreate gw inp s).result with
    | error e =>
      obtain ⟨-, -, -, -, -, -, -, htsRes, hretRes, -, -, -, -, -⟩ :=
        orderCreate_error_frame gw inp s e (by rw [hres]; rfl)
      exact pairInv_congr htsRes hretRes hp
    | ok info =>
      obtain ⟨rows, cop, s1, s3, s4, s5, s6, hrows, hcop, hs1, hs3, hs4,
        hs5, hs6, hs7, -, -⟩ := orderCreate_ok_decomp hres
      obtain ⟨cu, ol, e3⟩ := couponStep_shape hs3
      obtain ⟨m, me, e4⟩ := processMembership_shape hs4
      obtain ⟨t, e5⟩ := processPackages_shape hs5
      have hp5 : pairInv s5 := by
        apply pairInv_congr ?_ ?_ hp <;>
          (rw [e5, e4, e3]; rcases hs1 with rfl | rfl <;> rfl)
      exact processRetirements_pairInv hs7
        (processTimeslots_pairInv hs6 hp5)

/-- Counterexample to **C6** as stated: user 1 already holds an active
reservation on timeslot 10 (price 1) but has 0 tickets, so resubmitting the
same timeslot order fails with the not-enough-tickets error — which fires
before the duplicate-registration check — not with the duplicate error the
claim promises. -/
theorem duplicate_reservation_counterexample :
    hasActiveTsRes wDupSt 10 = true ∧
    resultError (orderCreate wGwOk wInpTs wDupSt).result =
      some ErrReason.notEnoughTickets ∧
    ErrReason.notEnoughTickets ≠ ErrReason.alreadyRegisteredTimeslot := by
  refine ⟨by decide, by decide, by decide⟩

theorem duplicate_reservation_rejected_witness :
    (∃ e, resultError (orderCreate wGwOk wInpTs wDupSt).result = some e) ∧
    rollbackEq wDupSt (orderCreate wGwOk wInpTs wDupSt).st :=
  (duplicate_reservation_rejected wGwOk wInpTs wDupSt).1
    ⟨⟨CType.timeslot, 10, 1⟩, by decide, Or.inl ⟨rfl, by decide⟩⟩

/-- When the atomic body fails, `orderCreate` (entered without a
single-use token) surfaces the body's error and returns the entry state. -/
theorem orderCreate_error_of_body {gw : Gateway} {inp : CreateIn} {s : St}
    {rows : List ValidLine} {cop : Option CouponRow}
    (hrows : validateLines s inp.lines = .ok rows)
    (hcop : resolveCoupon s inp.coupon = .ok cop)
    (hsut : inp.singleUseToken = false) {e : ErrReason}
    (hbody : (createBody gw inp rows cop s).1 = .error e) :
    resultError (orderCreate gw inp s).result = some e ∧
    (orderCreate gw inp s).st = s := by
  simp only [orderCreate, hrows, hcop]
  rw [if_neg (by simp [hsut])]
  rcases hcb : createBody gw inp rows cop s with ⟨r, calls⟩
  rw [hcb] at hbody
  simp only at hbody
  subst hbody
  exact ⟨rfl, rfl⟩

/-- With a membership line present, no coupon, and an unexpired membership
on the user, the atomic body fails with the already-active error. -/
theorem createBody_membership_active {gw : Gateway} {inp : CreateIn}
    {rows : List ValidLine} {s1 : St}
    (hne : rows.filter (fun r => r.ctype = CType.membership) ≠ [])
    (hmem : s1.user.membership.isSome = true)
    (hend : s1.user.membershipEnd > inp.today) :
    (createBody gw inp rows none s1).1 = .error .alreadyActiveMembership := by
  simp only [createBody, couponStep]
  cases hmemRows : rows.filter (fun r => r.ctype = CType.membership) with
  | nil => exact absurd hmemRows hne
  | cons m rest =>
    simp only [processMembership]
    rw [if_pos ⟨hmem, hend⟩]

/-- A successful membership block with a non-empty membership list sets the
user's membership to the first line's product with expiry
`today + duration`. -/
theorem processMembership_set {today : ℤ} {m : ValidLine}
    {rest : List ValidLine} {s s' : St}
    (h : processMembership today (m :: rest) s = .ok s') :
    ∃ mp, s.membershipsCat.lookup m.objId = some mp ∧
      s' = { s with user := { s.user with
        membership := some m.objId,
        membershipEnd := today + mp.duration } } := by
  simp only [processMembership] at h
  split at h
  · exact absurd h (by simp)
  · split at h
    · exact absurd h (by simp)
    · rename_i mp hmp
      cases h
      exact ⟨mp, hmp, rfl⟩

/-- Pointwise equality of the (ctype, objId) images transfers the head of a
content-type filter from the submitted lines to the validated rows. -/
theorem filter_head_corr {rows : List ValidLine} {lines : List LineData}
    (hmap : rows.map (fun v => (v.ctype, v.objId)) =
      lines.map (fun l => (l.ctype, l.objId)))
    {c : CType} {l : LineData}
    (hl : (lines.filter (fun x => x.ctype = c)).head? = some l) :
    ∃ m rest, rows.filter (fun r => r.ctype = c) = m :: rest ∧
      m.objId = l.objId := by
  induction rows generalizing lines with
  | nil =>
    cases lines with
    | nil => simp at hl
    | cons x xs => simp at hmap
  | cons r rs ih =>
    cases lines with
    | nil => simp at hmap
    | cons x xs =>
      simp only [List.map_cons, List.cons.injEq] at hmap
      obtain ⟨hhead, htail⟩ := hmap
      have hct : r.ctype = x.ctype := congrArg Prod.fst hhead
      have hob : r.objId = x.objId := congrArg Prod.snd hhead
      by_cases hc : x.ctype = c
      · have hlx : l = x := by
          rw [List.filter_cons_of_pos (by simp [hc])] at hl
          simpa using hl.symm
        refine ⟨r, rs.filter (fun r => r.ctype = c), ?_, ?_⟩
        · rw [List.filter_cons_of_pos (by simp [hct, hc])]
        · rw [hob, hlx]
      · have hl' : ((xs.filter (fun x => x.ctype = c)).head?) = some l := by
          rw [List.filter_cons_of_neg (by simp [hc])] at hl
          exact hl
        obtain ⟨m, rest, hmr, hmo⟩ := ih htail hl'
        refine ⟨m, rest, ?_, hmo⟩
        rw [List.filter_cons_of_neg (by simp [hct, hc]), hmr]

/-- **C7**: for an order containing a membership line, if the requesting
user already holds a membership with `membership_end` strictly after today,
the order is rejected with the already-active-membership error and nothing
persists (stated here for a coupon-free order whose lines validate, paid
without a single-use token, so that no other validation step can fire
first); otherwise, on success, the user's membership is set to the first
membership line's product and `membership_end` to today plus the product's
`duration`. -/
theorem membership_order_rules (gw : Gateway) (inp : CreateIn) (s : St) :
    (∀ rows, (∃ l ∈ inp.lines, l.ctype = CType.membership) →
      validateLines s inp.lines = .ok rows →
      inp.coupon = none →
      inp.singleUseToken = false →
      s.user.membership.isSome = true →
      s.user.membershipEnd > inp.today →
      resultError (orderCreate gw inp s).result =
        some .alreadyActiveMembership ∧
      (orderCreate gw inp s).st = s) ∧
    (∀ info, (orderCreate gw inp s).result = .ok info →
      ∀ l, (inp.lines.filter (fun x => x.ctype = CType.membership)).head? =
        some l →
      ∃ mp, s.membershipsCat.lookup l.objId = some mp ∧
        (orderCreate gw inp s).st.user.membership = some l.objId ∧
        (orderCreate gw inp s).st.user.membershipEnd =
          inp.today + mp.duration) := by
  constructor
  · rintro rows ⟨l, hl, hct⟩ hrows hcoup hsut hmem hend
    have hne : rows.filter (fun r => r.ctype = CType.membership) ≠ [] := by
      obtain ⟨row, hrowmem, -⟩ := exists_row_of_line hrows hl hct
      intro hnil
      rw [hnil] at hrowmem
      exact absurd hrowmem (List.not_mem_nil row)
    have hrc : resolveCoupon s inp.coupon = .ok none := by
      rw [hcoup]
      rfl
    exact orderCreate_error_of_body hrows hrc hsut
      (createBody_membership_active hne hmem hend)
  · intro info hres l hl
    obtain ⟨rows, cop, s1, s3, s4, s5, s6, hrows, hcop, hs1, hs3, hs4,
      hs5, hs6, hs7, -, -⟩ := orderCreate_ok_decomp hres
    obtain ⟨m, rest, hmr, hmo⟩ := filter_head_corr (validateLines_shape hrows) hl
    rw [hmr] at hs4
    obtain ⟨mp, hmp, e4⟩ := processMembership_set hs4
    obtain ⟨cu, ol, e3⟩ := couponStep_shape hs3
    obtain ⟨t, e5⟩ := processPackages_shape hs5
    obtain ⟨added6, -, e6⟩ := processTimeslots_effect hs6
    obtain ⟨added7, -, -, -, huser7, -, -, -, -, -, -, -, -, -, -⟩ :=
      processRetirements_effect hs7
    have h3cat : s3.membershipsCat = s.membershipsCat := by
      rw [e3]
      rcases hs1 with rfl | rfl <;> rfl
    refine ⟨mp, ?_, ?_, ?_⟩
    · rw [← hmo, ← h3cat]
      exact hmp
    · rw [huser7, e6, e5, e4]
      exact congrArg some hmo
    · rw [huser7, e6, e5, e4]

theorem membership_order_rules_witness :
    resultError (orderCreate wGwChargeFail wInpMembership wStActiveMem).result =
      some ErrReason.alreadyActiveMembership ∧
    (orderCreate wGwChargeFail wInpMembership wStActiveMem).st =
      wStActiveMem :=
  (membership_order_rules wGwChargeFail wInpMembership wStActiveMem).1
    [⟨CType.membership, 30, 1, qmul 50 1⟩]
    ⟨⟨CType.membership, 30, 1⟩, by decide, rfl⟩
    (by decide) rfl rfl (by decide) (by decide)

/-- `chargeStep` charges at most once; a charge happens only with
`need_transaction`, a token and a non-zero `int(amount)`; and every
charge is for `int(round(amount))` = `roundHalfEven amount2` minor units. -/
theorem chargeStep_calls {needTx pt sut : Bool} {a2 : ℚ} {gw : Gateway}
    {r : Except ErrReason Unit} {calls : List ExtCall}
    (h : chargeStep needTx pt sut a2 gw = (r, calls)) :
    (calls.filter isChargeCall).length ≤ 1 ∧
    ((∃ a, ExtCall.charge a ∈ calls) →
      needTx = true ∧ (pt = true ∨ sut = true) ∧ truncQ a2 ≠ 0) ∧
    (∀ a, ExtCall.charge a ∈ calls → a = roundHalfEven a2) := by
  rw [chargeStep] at h
  split at h
  · rename_i hc
    obtain ⟨h1, h2, h3⟩ := hc
    split at h <;> cases h <;>
      exact ⟨by simp [isChargeCall], fun _ => ⟨h1, Or.inl h2, h3⟩,
        by intro a ha; simp only [List.mem_singleton,
          ExtCall.charge.injEq] at ha; exact ha⟩
  · split at h
    · rename_i hc
      obtain ⟨h1, h2, h3⟩ := hc
      split at h
      · split at h <;> cases h <;>
          exact ⟨by simp [isChargeCall], fun _ => ⟨h1, Or.inr h2, h3⟩,
            by intro a ha; simp only [List.mem_cons, List.not_mem_nil,
              or_false, ExtCall.charge.injEq] at ha
               rcases ha with h0 | h0
               · exact absurd h0 (by simp)
               · exact h0⟩
      · cases h
        exact ⟨by simp [isChargeCall], fun ⟨a, ha⟩ => absurd ha (by simp),
          fun a ha => absurd ha (by simp)⟩
    · split at h <;> cases h <;>
        exact ⟨by simp, fun ⟨a, ha⟩ => absurd ha (by simp),
          fun a ha => absurd ha (by simp)⟩

/-- Counterexample to **C3** as stated: a one-package order (package price
0.10, stored token, 5% tax rate) yields the rounding tie 10.5 cents; the
code (Python `round`, half-even) charges 10 minor units, while the spec's
round-half-up formula demands 11. -/
theorem charge_rounding_counterexample :
    (orderCreate wGwOk wInpPkg wSt).calls = [ExtCall.charge 10] ∧
    resultError (orderCreate wGwOk wInpPkg wSt).result = none ∧
    orderTotalCost (orderCreate wGwOk wInpPkg wSt).st 99 = mkRat 1 10 ∧
    specMinorUnits (mkRat 1 10) (mkRat 1 20) = 11 :=
  ⟨by decide, by decide, by decide, by decide⟩

/-- **C3** (amended): for every committed order, the recorded tax is the
post-discount total times the tax rate quantized half-even to 2 decimals,
the recorded amount is the total times `(1 + rate)` in minor units quantized
half-even to 2 decimals, and every charge sent to the gateway is that
amount rounded to an integer half-even (Python `round` / `ROUND_HALF_EVEN`
semantics, not round-half-up). -/
theorem charge_amount_characterization (gw : Gateway) (inp : CreateIn)
    (s : St) (info : SuccessInfo)
    (hres : (orderCreate gw inp s).result = .ok info) :
    info.tax =
      quantize2 (qmul (orderTotalCost (orderCreate gw inp s).st inp.orderId)
        inp.rate) ∧
    info.amountCents =
      quantize2 (qmul (qmul
        (orderTotalCost (orderCreate gw inp s).st inp.orderId)
        (qadd 1 inp.rate)) 100) ∧
    ∀ a, ExtCall.charge a ∈ (orderCreate gw inp s).calls →
      a = roundHalfEven info.amountCents := by
  obtain ⟨rows, cop, s1, s3, s4, s5, s6, hrows, hcop, hs1, hcs3, hm, hp,
    hts, hret, ⟨chargeCalls, hch, hcalls⟩, hinfo⟩ := orderCreate_ok_decomp hres
  obtain ⟨m, e, he4⟩ := processMembership_shape hm
  obtain ⟨t, he5⟩ := processPackages_shape hp
  obtain ⟨addedTs, hlts, he6⟩ := processTimeslots_effect hts
  obtain ⟨addedRet, _, _, _, _, _, _, _, _, _, _, _, _, holines, _⟩ :=
    processRetirements_effect hret
  have hol : (orderCreate gw inp s).st.orderLines = s3.orderLines := by
    rw [holines, he6, he5, he4]
  have htot : orderTotalCost (orderCreate gw inp s).st inp.orderId =
      orderTotalCost s3 inp.orderId := by
    rw [orderTotalCost, orderTotalCost, hol]
  subst hinfo
  refine ⟨by rw [htot], by rw [htot], ?_⟩
  intro a ha
  obtain ⟨-, -, hamt⟩ := chargeStep_calls hch
  rcases hcalls with hc | hc
  · rw [hc] at ha
    exact hamt a ha
  · rw [hc] at ha
    simp only [List.mem_cons] at ha
    rcases ha with h1 | h1
    · exact absurd h1 (by simp)
    · exact hamt a h1

/-- Witness for `charge_amount_characterization` at the package fixture. -/
theorem charge_amount_characterization_witness :
    (orderCreate wGwOk wInpPkg wSt).result =
      Except.ok ⟨99, 0, mkRat 21 2⟩ ∧
    (⟨99, 0, mkRat 21 2⟩ : SuccessInfo).amountCents =
      quantize2 (qmul (qmul
        (orderTotalCost (orderCreate wGwOk wInpPkg wSt).st wInpPkg.orderId)
        (qadd 1 wInpPkg.rate)) 100) :=
  ⟨by decide, ((charge_amount_characterization wGwOk wInpPkg wSt
      ⟨99, 0, mkRat 21 2⟩ (by decide)).2).1⟩

/-- A list with a member is not empty. -/
theorem isEmpty_ne_of_mem {A : Type} {x : A} {l : List A} (h : x ∈ l) :
    l.isEmpty ≠ true := by
  cases l with
  | nil => exact absurd h (by simp)
  | cons a t => simp

/-- Each validated row descends from an input line of the same content
type. -/
theorem exists_line_of_row {s : St} {lines : List LineData}
    {rows : List ValidLine} (hv : validateLines s lines = .ok rows)
    {row : ValidLine} (hr : row ∈ rows) :
    ∃ l ∈ lines, l.ctype = row.ctype := by
  have hmap := validateLines_shape hv
  have hmem : (row.ctype, row.objId) ∈
      lines.map (fun l => (l.ctype, l.objId)) := by
    rw [← hmap]
    exact List.mem_map_of_mem _ hr
  obtain ⟨l, hl, heq⟩ := List.mem_map.mp hmem
  exact ⟨l, hl, congrArg Prod.fst heq⟩

/-- On an all-timeslot order, the membership / package / retirement row
filters are empty. -/
theorem filters_empty_of_all_ts {s : St} {lines : List LineData}
    {rows : List ValidLine} (hv : validateLines s lines = .ok rows)
    (hts : ∀ l ∈ lines, l.ctype = CType.timeslot)
    (c : CType) (hc : c ≠ CType.timeslot) :
    rows.filter (fun r => r.ctype = c) = [] := by
  rw [List.filter_eq_nil_iff]
  intro row hrow
  obtain ⟨l, hl, hlc⟩ := exists_line_of_row hv hrow
  simp only [decide_eq_true_eq]
  intro hrc
  exact hc (by rw [← hrc, ← hlc]; exact hts l hl)

/-- A non-empty row filter for a non-timeslot content type yields a
non-timeslot input line. -/
theorem nonts_line_of_filter {s : St} {lines : List LineData}
    {rows : List ValidLine} (hv : validateLines s lines = .ok rows)
    (c : CType) (hc : c ≠ CType.timeslot)
    (hne : rows.filter (fun r => r.ctype = c) ≠ []) :
    ∃ l ∈ lines, l.ctype ≠ CType.timeslot := by
  obtain ⟨row, hrowmem⟩ := List.exists_mem_of_ne_nil _ hne
  have hrow := List.mem_filter.mp hrowmem
  obtain ⟨l, hl, hlc⟩ := exists_line_of_row hv hrow.1
  refine ⟨l, hl, ?_⟩
  rw [hlc, of_decide_eq_true hrow.2]
  exact hc

/-- Without `need_transaction`, `chargeStep` performs no external call. -/
theorem chargeStep_no_needTx {pt sut : Bool} {a2 : ℚ} {gw : Gateway}
    {r : Except ErrReason Unit} {calls : List ExtCall}
    (h : chargeStep false pt sut a2 gw = (r, calls)) : calls = [] := by
  rw [chargeStep] at h
  rw [if_neg (by simp), if_neg (by simp), if_neg (by simp)] at h
  cases h
  rfl

/-- A successful `chargeStep` needing a transaction but holding no token
can only have had a zero `int(amount)`. -/
theorem chargeStep_ok_no_token {a2 : ℚ} {gw : Gateway}
    {calls : List ExtCall}
    (h : chargeStep true false false a2 gw = (.ok (), calls)) :
    truncQ a2 = 0 := by
  rw [chargeStep] at h
  rw [if_neg (by simp), if_neg (by simp)] at h
  split at h
  · exact absurd h (by simp)
  · rename_i hc
    by_contra hne
    exact hc ⟨rfl, hne⟩

/-- `createBody`'s external-call trace is empty or is exactly the trace of
its final `chargeStep`. -/
theorem createBody_calls {gw : Gateway} {inp : CreateIn}
    {rows : List ValidLine} {cop : Option CouponRow} {s1 : St}
    {res : Except ErrReason (St × SuccessInfo)} {calls : List ExtCall}
    (h : createBody gw inp rows cop s1 = (res, calls)) :
    calls = [] ∨
    ∃ a2 r, chargeStep
        (¬(rows.filter (fun r => r.ctype = CType.membership)).isEmpty ∨
          ¬(rows.filter (fun r => r.ctype = CType.package)).isEmpty ∨
          ¬(rows.filter (fun r => r.ctype = CType.retirement)).isEmpty)
        inp.paymentToken inp.singleUseToken a2 gw = (r, calls) := by
  simp only [createBody] at h
  split at h
  · cases h; exact Or.inl rfl
  · split at h
    · cases h; exact Or.inl rfl
    · split at h
      · cases h; exact Or.inl rfl
      · split at h
        · cases h; exact Or.inl rfl
        · split at h
          · cases h; exact Or.inl rfl
          · split at h
            · rename_i e cs hcs
              cases h
              exact Or.inr ⟨_, _, hcs⟩
            · rename_i u cs hcs
              cases h
              exact Or.inr ⟨_, _, hcs⟩

/-- Every run's external-call trace is a profile-creation prefix (possibly
empty) followed by the trace of one `chargeStep` (possibly absent). -/
theorem orderCreate_calls_char (gw : Gateway) (inp : CreateIn) (s : St) :
    ((orderCreate gw inp s).calls = [] ∨
      (orderCreate gw inp s).calls = [ExtCall.createProfile]) ∨
    ∃ rows cp a2 r calls',
      validateLines s inp.lines = .ok rows ∧
      (cp = ([] : List ExtCall) ∨ cp = [ExtCall.createProfile]) ∧
      chargeStep
        (¬(rows.filter (fun r => r.ctype = CType.membership)).isEmpty ∨
          ¬(rows.filter (fun r => r.ctype = CType.package)).isEmpty ∨
          ¬(rows.filter (fun r => r.ctype = CType.retirement)).isEmpty)
        inp.paymentToken inp.singleUseToken a2 gw = (r, calls') ∧
      (orderCreate gw inp s).calls = cp ++ calls' := by
  rcases hout : orderCreate gw inp s with ⟨st, calls, result⟩
  rw [orderCreate] at hout
  split at hout
  · cases hout
    exact Or.inl (Or.inl rfl)
  · rename_i rows hrows
    split at hout
    · cases hout
      exact Or.inl (Or.inl rfl)
    · rename_i cop hcop
      split at hout
      · split at hout
        · split at hout
          · rename_i e calls1 hbody
            cases hout
            rcases createBody_calls hbody with hc | ⟨a2, r, hch⟩
            · subst hc
              exact Or.inl (Or.inr rfl)
            · exact Or.inr ⟨rows, [ExtCall.createProfile], a2, r, calls1,
                hrows, Or.inr rfl, hch, rfl⟩
          · rename_i s2 info1 calls1 hbody
            cases hout
            rcases createBody_calls hbody with hc | ⟨a2, r, hch⟩
            · subst hc
              exact Or.inl (Or.inr rfl)
            · exact Or.inr ⟨rows, [ExtCall.createProfile], a2, r, calls1,
                hrows, Or.inr rfl, hch, rfl⟩
        · cases hout
          exact Or.inl (Or.inr rfl)
      · split at hout
        · rename_i e calls1 hbody
          cases hout
          rcases createBody_calls hbody with hc | ⟨a2, r, hch⟩
          · subst hc
            exact Or.inl (Or.inl rfl)
          · exact Or.inr ⟨rows, [], a2, r, _, hrows, Or.inl rfl, hch,
              (List.nil_append _).symm⟩
        · rename_i s2 info1 calls1 hbody
          cases hout
          rcases createBody_calls hbody with hc | ⟨a2, r, hch⟩
          · subst hc
            exact Or.inl (Or.inl rfl)
          · exact Or.inr ⟨rows, [], a2, r, _, hrows, Or.inl rfl, hch,
              (List.nil_append _).symm⟩

/-- A non-timeslot line makes `need_transaction` true. -/
theorem needTx_true_of_nonts {s : St} {lines : List LineData}
    {rows : List ValidLine} (hrows : validateLines s lines = .ok rows)
    (hnonts : ∃ l ∈ lines, l.ctype ≠ CType.timeslot) :
    (¬(rows.filter (fun r => r.ctype = CType.membership)).isEmpty ∨
      ¬(rows.filter (fun r => r.ctype = CType.package)).isEmpty ∨
      ¬(rows.filter (fun r => r.ctype = CType.retirement)).isEmpty :
      Bool) = true := by
  obtain ⟨l, hl, hlc⟩ := hnonts
  apply decide_eq_true
  cases hc : l.ctype with
  | timeslot => exact absurd hc hlc
  | membership =>
    obtain ⟨row, hrow, -⟩ := exists_row_of_line hrows hl hc
    exact Or.inl (isEmpty_ne_of_mem hrow)
  | package =>
    obtain ⟨row, hrow, -⟩ := exists_row_of_line hrows hl hc
    exact Or.inr (Or.inl (isEmpty_ne_of_mem hrow))
  | retirement =>
    obtain ⟨row, hrow, -⟩ := exists_row_of_line hrows hl hc
    exact Or.inr (Or.inr (isEmpty_ne_of_mem hrow))

/-- With `need_transaction`, no token and a non-zero `int(amount)`,
`chargeStep` raises the token-demanding error with no external call. -/
theorem chargeStep_no_token_error {needTx : Bool} {a2 : ℚ} (gw : Gateway)
    (hn : needTx = true) (hnz : truncQ a2 ≠ 0) :
    chargeStep needTx false false a2 gw =
      (.error .tokenRequired, []) := by
  rw [chargeStep]
  rw [if_neg (by simp), if_neg (by simp), if_pos ⟨hn, hnz⟩]

/-- A successful run entered without a `single_use_token` factors through
`createBody` on the entry state itself. -/
theorem orderCreate_noprofile_ok {gw : Gateway} {inp : CreateIn} {s : St}
    {info : SuccessInfo} (hsut : inp.singleUseToken = false)
    (h : (orderCreate gw inp s).result = .ok info) :
    ∃ rows cop calls,
      validateLines s inp.lines = .ok rows ∧
      resolveCoupon s inp.coupon = .ok cop ∧
      createBody gw inp rows cop s =
        (.ok ((orderCreate gw inp s).st, info), calls) := by
  rcases hout : orderCreate gw inp s with ⟨st, calls, result⟩
  rw [hout] at h
  simp only at h
  rw [orderCreate] at hout
  split at hout
  · cases hout
    exact absurd h (by simp)
  · rename_i rows hrows
    split at hout
    · cases hout
      exact absurd h (by simp)
    · rename_i cop hcop
      split at hout
      · rename_i hcond
        exact absurd hcond.1 (by simp [hsut])
      · split at hout
        · rename_i e calls1 hbody
          cases hout
          exact absurd h (by simp)
        · rename_i s2 info1 calls1 hbody
          cases hout
          cases h
          exact ⟨rows, cop, _, hrows, hcop, hbody⟩

/-- Counterexample to **C4**'s "reservation-only orders never make any
external payment call": a pure timeslot order paid via `single_use_token`
by a user with no `PaymentProfile` triggers an external Paysafe profile
creation (before the atomic block) even though nothing is charged. -/
theorem pure_timeslot_profile_call_counterexample :
    (∀ l ∈ wInpTsSut.lines, l.ctype = CType.timeslot) ∧
    (orderCreate wGwOk wInpTsSut wSt).calls = [ExtCall.createProfile] ∧
    resultError (orderCreate wGwOk wInpTsSut wSt).result = none :=
  ⟨by decide, by decide, by decide⟩

/-- **C4** (amended): at most one external charge is made per order; a
charge happens only when some line is not a timeslot, a token was supplied
and the computed `int(amount)` is non-zero (every charged value is
`int(round(amount))` of that one non-zero amount, and a committed charged
order records a non-zero `int(amount)`); with no token, an order that
would commit with a non-zero `int(amount)` — same lines, coupon, order id,
date and rate, e.g. the very same order submitted with a stored payment
token — instead fails with the token-demanding validation error with no
state change and no external call, a successful no-token order with a
non-timeslot line must have had `int(amount) = 0`, and any failure leaves
the database state rolled back; a pure timeslot order never triggers a
charge or card creation (though it may trigger a Paysafe *profile*
creation), and on success debits one ticket and appends one reservation
per line. -/
theorem charge_call_conditions (gw : Gateway) (inp : CreateIn) (s : St) :
    ((orderCreate gw inp s).calls.filter isChargeCall).length ≤ 1 ∧
    ((∃ a, ExtCall.charge a ∈ (orderCreate gw inp s).calls) →
      (∃ l ∈ inp.lines, l.ctype ≠ CType.timeslot) ∧
      (inp.paymentToken = true ∨ inp.singleUseToken = true) ∧
      (∃ a2 : ℚ, truncQ a2 ≠ 0 ∧
        ∀ a, ExtCall.charge a ∈ (orderCreate gw inp s).calls →
          a = roundHalfEven a2) ∧
      (∀ info, (orderCreate gw inp s).result = Except.ok info →
        truncQ info.amountCents ≠ 0)) ∧
    (inp.paymentToken = false → inp.singleUseToken = false →
      ((∀ info, (orderCreate gw inp s).result = Except.ok info →
          (∃ l ∈ inp.lines, l.ctype ≠ CType.timeslot) →
          truncQ info.amountCents = 0) ∧
        (∀ e, resultError (orderCreate gw inp s).result = some e →
          rollbackEq s (orderCreate gw inp s).st) ∧
        ∀ inp' : CreateIn, ∀ info : SuccessInfo,
          inp'.lines = inp.lines → inp'.coupon = inp.coupon →
          inp'.orderId = inp.orderId → inp'.today = inp.today →
          inp'.rate = inp.rate → inp'.singleUseToken = false →
          (∃ l ∈ inp.lines, l.ctype ≠ CType.timeslot) →
          (orderCreate gw inp' s).result = Except.ok info →
          truncQ info.amountCents ≠ 0 →
          orderCreate gw inp s =
            ⟨s, [], Except.error ErrReason.tokenRequired⟩)) ∧
    ((∀ l ∈ inp.lines, l.ctype = CType.timeslot) →
      ((∀ c ∈ (orderCreate gw inp s).calls,
          ¬isChargeCall c ∧ c ≠ ExtCall.createCard) ∧
        ∀ info, (orderCreate gw inp s).result = Except.ok info →
          ∃ added : List TsRes, added.length = inp.lines.length ∧
            (orderCreate gw inp s).st.tsRes = s.tsRes ++ added ∧
            (orderCreate gw inp s).st.user.tickets =
              s.user.tickets - inp.lines.length)) := by
  refine ⟨?_, ?_, ?_, ?_⟩
  · rcases orderCreate_calls_char gw inp s with (hc | hc) |
      ⟨rows, cp, a2, r, calls', hrows, hcp, hch, hcalls⟩
    · rw [hc]
      decide
    · rw [hc]
      decide
    · obtain ⟨hlen1, -, -⟩ := chargeStep_calls hch
      rw [hcalls, List.filter_append, List.length_append]
      rcases hcp with rfl | rfl
      · simpa using hlen1
      · simpa [isChargeCall] using hlen1
  · rintro ⟨a, ha⟩
    rcases orderCreate_calls_char gw inp s with (hc | hc) |
      ⟨rows, cp, a2, r, calls', hrows, hcp, hch, hcalls⟩
    · rw [hc] at ha
      exact absurd ha (by simp)
    · rw [hc] at ha
      simp only [List.mem_singleton] at ha
      exact absurd ha (by simp)
    · rw [hcalls] at ha
      rcases List.mem_append.mp ha with h0 | h0
      · rcases hcp with rfl | rfl
        · exact absurd h0 (by simp)
        · simp only [List.mem_singleton] at h0
          exact absurd h0 (by simp)
      · obtain ⟨-, hcond, hamt⟩ := chargeStep_calls hch
        obtain ⟨hneed, htok, hnzq⟩ := hcond ⟨a, h0⟩
        refine ⟨?_, htok, ⟨a2, hnzq, ?_⟩, ?_⟩
        · rcases of_decide_eq_true hneed with h | h | h
          · exact nonts_line_of_filter hrows CType.membership (by decide)
              (fun h1 => h (by rw [h1]; rfl))
          · exact nonts_line_of_filter hrows CType.package (by decide)
              (fun h1 => h (by rw [h1]; rfl))
          · exact nonts_line_of_filter hrows CType.retirement (by decide)
              (fun h1 => h (by rw [h1]; rfl))
        · intro b hb
          rw [hcalls] at hb
          rcases List.mem_append.mp hb with hb0 | hb0
          · rcases hcp with rfl | rfl
            · exact absurd hb0 (by simp)
            · simp only [List.mem_singleton] at hb0
              exact absurd hb0 (by simp)
          · exact hamt b hb0
        · intro info hres
          obtain ⟨rows2, cop2, s1b, s3b, s4b, s5b, s6b, hrows2, hcop2,
            hs1b, hs3b, hmb, hpb, htsb, hretb,
            ⟨chargeCalls2, hch2, hcalls2⟩, hinfo2⟩ :=
            orderCreate_ok_decomp hres
          obtain ⟨-, hcond2, -⟩ := chargeStep_calls hch2
          have haOut : ExtCall.charge a ∈ (orderCreate gw inp s).calls := by
            rw [hcalls]
            exact ha
          have hmem2 : ExtCall.charge a ∈ chargeCalls2 := by
            rcases hcalls2 with h2 | h2
            · rw [h2] at haOut
              exact haOut
            · rw [h2] at haOut
              rcases List.mem_cons.mp haOut with h3 | h3
              · exact absurd h3 (by simp)
              · exact h3
          obtain ⟨-, -, hnz2⟩ := hcond2 ⟨a, hmem2⟩
          subst hinfo2
          exact hnz2
  · intro hpt hsut
    refine ⟨?_, fun e he => orderCreate_error_frame gw inp s e he, ?_⟩
    · intro info hres hnonts
      obtain ⟨rows, cop, s1, s3, s4, s5, s6, hrows, hcop, hs1, hcs3, hm, hp,
        hts2, hret, ⟨chargeCalls, hch, hcalls⟩, hinfo⟩ :=
        orderCreate_ok_decomp hres
      rw [hpt, hsut] at hch
      have hneed := needTx_true_of_nonts hrows hnonts
      rw [hneed] at hch
      have h0 := chargeStep_ok_no_token hch
      subst hinfo
      exact h0
    · intro inp' info hl hc ho ht hr hsut' hnonts hok hnz
      obtain ⟨rows, cop, calls', hrows', hrc', hbody'⟩ :=
        orderCreate_noprofile_ok hsut' hok
      rw [hl] at hrows'
      rw [hc] at hrc'
      obtain ⟨s3, s4, s5, s6, hs3, hm, hp2, hts2, hret2, -, hinfo⟩ :=
        createBody_ok_decomp hbody'
      rw [ho] at hs3
      rw [ht] at hm
      rw [ho, hr] at hinfo
      have hneed := needTx_true_of_nonts hrows' hnonts
      have hnz2 : truncQ (quantize2 (qmul (qmul (orderTotalCost s3
          inp.orderId) (qadd 1 inp.rate)) 100)) ≠ 0 := by
        rw [hinfo] at hnz
        exact hnz
      have hbody : createBody gw inp rows cop s =
          (.error .tokenRequired, []) := by
        simp only [createBody, hs3, hm, hp2, hts2, hret2]
        rw [hpt, hsut]
        rw [chargeStep_no_token_error gw hneed hnz2]
      have hprof : ¬(inp.singleUseToken = true ∧ ¬s.hasProfile = true) := by
        simp [hsut]
      simp only [orderCreate, hrows', hrc']
      rw [if_neg hprof, hbody]
  · intro hts
    constructor
    · rcases orderCreate_calls_char gw inp s with (hc | hc) |
        ⟨rows, cp, a2, r, calls', hrows, hcp, hch, hcalls⟩
      · rw [hc]
        intro c hcmem
        exact absurd hcmem (by simp)
      · rw [hc]
        intro c hcmem
        simp only [List.mem_singleton] at hcmem
        subst hcmem
        exact ⟨by simp [isChargeCall], by simp⟩
      · have hfm := filters_empty_of_all_ts hrows hts CType.membership
          (by decide)
        have hfp := filters_empty_of_all_ts hrows hts CType.package
          (by decide)
        have hfr := filters_empty_of_all_ts hrows hts CType.retirement
          (by decide)
        cases hb :
            (¬(rows.filter (fun r => r.ctype = CType.membership)).isEmpty ∨
              ¬(rows.filter (fun r => r.ctype = CType.package)).isEmpty ∨
              ¬(rows.filter (fun r => r.ctype = CType.retirement)).isEmpty :
              Bool) with
        | false =>
          rw [hb] at hch
          have hnil := chargeStep_no_needTx hch
          subst hnil
          rw [hcalls, List.append_nil]
          rcases hcp with rfl | rfl
          · intro c hcmem
            exact absurd hcmem (by simp)
          · intro c hcmem
            simp only [List.mem_singleton] at hcmem
            subst hcmem
            exact ⟨by simp [isChargeCall], by simp⟩
        | true =>
          exfalso
          rcases of_decide_eq_true hb with h | h | h
          · exact h (by rw [hfm]; rfl)
          · exact h (by rw [hfp]; rfl)
          · exact h (by rw [hfr]; rfl)
    · intro info hres
      obtain ⟨rows, cop, s1, s3, s4, s5, s6, hrows, hcop, hs1, hcs3, hm, hp,
        hts2, hret, -, -⟩ := orderCreate_ok_decomp hres
      have hallts : ∀ row ∈ rows, row.ctype = CType.timeslot := by
        intro row hrow
        obtain ⟨l, hl, hlc⟩ := exists_line_of_row hrows hrow
        rw [← hlc]
        exact hts l hl
      have hfm := filters_empty_of_all_ts hrows hts CType.membership
        (by decide)
      have hfp := filters_empty_of_all_ts hrows hts CType.package
        (by decide)
      have hfr := filters_empty_of_all_ts hrows hts CType.retirement
        (by decide)
      rw [hfm] at hm
      rw [hfp] at hp
      rw [hfr] at hret
      have h34 : s3 = s4 := Except.ok.inj hm
      have h45 : s4 = s5 := Except.ok.inj hp
      have h6out : s6 = (orderCreate gw inp s).st := Except.ok.inj hret
      have hfull : rows.filter (fun r => r.ctype = CType.timeslot) = rows :=
        List.filter_eq_self.mpr (fun row hrow => by
          simp only [decide_eq_true_eq]
          exact hallts row hrow)
      rw [hfull] at hts2
      obtain ⟨added, hlen, he6⟩ := processTimeslots_effect hts2
      obtain ⟨cu, ol, e3⟩ := couponStep_shape hcs3
      have h3ts : s3.tsRes = s.tsRes := by
        rw [e3]
        rcases hs1 with rfl | rfl <;> rfl
      have h3u : s3.user = s.user := by
        rw [e3]
        rcases hs1 with rfl | rfl <;> rfl
      have h5ts : s5.tsRes = s.tsRes := by
        rw [← h45, ← h34]
        exact h3ts
      have h5u : s5.user = s.user := by
        rw [← h45, ← h34]
        exact h3u
      have hrl : rows.length = inp.lines.length := by
        have hm2 := congrArg List.length (validateLines_shape hrows)
        simpa using hm2
      refine ⟨added, by rw [hlen, hrl], ?_, ?_⟩
      · rw [← h6out, he6]
        show s5.tsRes ++ added = s.tsRes ++ added
        rw [h5ts]
      · rw [← h6out, he6]
        show s5.user.tickets - rows.length = s.user.tickets - inp.lines.length
        rw [h5u, hrl]

/-- Witness for `charge_call_conditions`: the one-package order that
commits and charges 10 cents under a stored token (`wInpPkg`) fails with
the token-demanding error, no state change and no external call when the
same order is submitted with no token at all. -/
theorem charge_call_conditions_witness :
    orderCreate wGwOk wInpPkgNoTok wSt =
      ⟨wSt, [], Except.error ErrReason.tokenRequired⟩ :=
  ((charge_call_conditions wGwOk wInpPkgNoTok wSt).2.2.1 rfl rfl).2.2
    wInpPkg ⟨99, 0, mkRat 21 2⟩ rfl rfl rfl rfl rfl rfl
    ⟨⟨CType.package, 40, 1⟩, by decide, by decide⟩ (by decide) (by decide)

/-- `retirement.save()` after decrementing: looking the row back up returns
the updated `reserved_seats`. -/
theorem lookup_setReservedSeats {rid : ℕ} {ret : RetirementP} (v : ℤ) :
    ∀ {l : List (ℕ × RetirementP)}, l.lookup rid = some ret →
      (setReservedSeats l rid v).lookup rid =
        some { ret with reservedSeats := v } := by
  intro l
  induction l with
  | nil =>
    intro h
    exact absurd h (by simp [List.lookup])
  | cons p t ih =>
    intro h
    rcases p with ⟨k, r0⟩
    simp only [setReservedSeats, List.map_cons]
    by_cases hk : k = rid
    · subst hk
      rw [if_pos rfl]
      simp only [List.lookup, beq_self_eq_true] at h ⊢
      cases h
      rfl
    · rw [if_neg hk]
      have hbeq : (rid == k) = false :=
        beq_eq_false_iff_ne.mpr (fun h0 => hk h0.symm)
      simp only [List.lookup, hbeq] at h ⊢
      exact ih h

/-- A wait-queue-promoted retirement line: not yet registered, reserved
seats truthy and a notification present admit the user, decrement
`reserved_seats` and delete the user's wait-queue entries. -/
theorem processRetirementLine_promote {s : St} {row : ValidLine}
    {ret : RetirementP}
    (hlook : s.retirements.lookup row.objId = some ret)
    (hnodup : hasActiveRetRes s row.objId = false)
    (hrs : ret.reservedSeats ≠ 0)
    (hnotif : hasNotif s row.objId = true) :
    processRetirementLine s row = .ok { s with
      retRes := s.retRes ++ [⟨s.uid, row.objId, true⟩],
      retirements :=
        setReservedSeats s.retirements row.objId (ret.reservedSeats - 1),
      waitQueue :=
        if s.waitQueue.filter (fun e => e.1 = s.uid ∧ e.2 = row.objId)
            ≠ [] then
          s.waitQueue.filter (fun e => ¬(e.1 = s.uid ∧ e.2 = row.objId))
        else s.waitQueue } := by
  simp only [processRetirementLine, hlook]
  rw [if_neg (by simp [hnodup]), if_pos (Or.inr ⟨hrs, hnotif⟩), if_pos hrs]

/-- The retirement block on a single line, when the profile is complete. -/
theorem processRetirements_single {s : St} {row : ValidLine} {s' : St}
    (hph : ¬s.user.phone = "") (hct : ¬s.user.city = "")
    (hline : processRetirementLine s row = .ok s') :
    processRetirements [row] s = .ok s' := by
  simp only [processRetirements]
  rw [if_neg (not_or.mpr ⟨hph, hct⟩)]
  simp only [processRetirements.go, hline]

/-- Deleting the user's wait-queue entries leaves none behind. -/
theorem filter_waitQueue_cleared (l : List (ℕ × ℕ)) (u rid : ℕ) :
    ((if l.filter (fun e => e.1 = u ∧ e.2 = rid) ≠ [] then
        l.filter (fun e => ¬(e.1 = u ∧ e.2 = rid))
      else l).filter (fun e => e.1 = u ∧ e.2 = rid)) = [] := by
  split
  · rw [List.filter_eq_nil_iff]
    intro e he
    have h2 := (List.mem_filter.mp he).2
    intro hdec
    exact (of_decide_eq_true h2) (of_decide_eq_true hdec)
  · rename_i hne
    exact not_ne_iff.mp hne

/-- On an order id fresh in `orderLines`, the order's total cost is the
single created line's cost. -/
theorem orderTotalCost_fresh {s : St} {oid : ℕ}
    (hfresh : ∀ r ∈ s.orderLines, r.orderId ≠ oid) (v : ValidLine) :
    orderTotalCost { s with
      orders := oid :: s.orders,
      orderLines := s.orderLines ++ [mkRow oid v] } oid = v.cost := by
  rw [orderTotalCost]
  show qsum (((s.orderLines ++ [mkRow oid v]).filter
      (fun r => r.orderId = oid)).map (fun r => r.cost)) = v.cost
  rw [List.filter_append]
  have h1 : s.orderLines.filter (fun r => r.orderId = oid) = [] := by
    rw [List.filter_eq_nil_iff]
    intro r hr
    simp only [decide_eq_true_eq]
    exact hfresh r hr
  have h2 : ([mkRow oid v].filter (fun r => r.orderId = oid)) =
      [mkRow oid v] := by
    simp [mkRow]
  rw [h1, h2]
  simp only [List.nil_append, List.map_cons, List.map_nil]
  show qsum [v.cost] = v.cost
  simp [qsum, qadd_eq]

/-- **C5**: a retirement line with exhausted normal capacity but truthy
`reserved_seats` and a wait-queue notification for the requesting user is
admitted: the order succeeds, `reserved_seats` is decremented by exactly
one, an active reservation is appended, and the user's wait-queue entries
for that retirement are removed. -/
theorem retirement_waitqueue_promotion (gw : Gateway) (inp : CreateIn)
    (s : St) (rid : ℕ) (q : ℤ) (ret : RetirementP) (vl : ValidLine)
    (hlines : inp.lines = [⟨CType.retirement, rid, q⟩])
    (hcl : checkLine s ⟨CType.retirement, rid, q⟩ = .ok vl)
    (hcoup : inp.coupon = none)
    (hsut : inp.singleUseToken = false)
    (hpt : inp.paymentToken = true)
    (hgw : gw.chargeOk = true)
    (hphone : ¬s.user.phone = "") (hcity : ¬s.user.city = "")
    (hlook : s.retirements.lookup rid = some ret)
    (hfull : ¬(ret.seats - totalReservations s rid - ret.reservedSeats > 0))
    (hrs : ret.reservedSeats ≠ 0)
    (hnotif : hasNotif s rid = true)
    (hnodup : hasActiveRetRes s rid = false)
    (hfresh : ∀ r ∈ s.orderLines, r.orderId ≠ inp.orderId)
    (hnz : truncQ (quantize2 (qmul (qmul vl.cost (qadd 1 inp.rate)) 100))
      ≠ 0) :
    resultError (orderCreate gw inp s).result = none ∧
    (orderCreate gw inp s).st.retirements.lookup rid =
      some { ret with reservedSeats := ret.reservedSeats - 1 } ∧
    (orderCreate gw inp s).st.retRes = s.retRes ++ [⟨s.uid, rid, true⟩] ∧
    (orderCreate gw inp s).st.waitQueue.filter
      (fun e => e.1 = s.uid ∧ e.2 = rid) = [] := by
  obtain ⟨hvc, hvo⟩ := checkLine_shape hcl
  have hrows : validateLines s inp.lines = .ok [vl] := by
    rw [hlines]
    simp only [validateLines, hcl]
  have hrc : resolveCoupon s inp.coupon = .ok none := by
    rw [hcoup]
    rfl
  have hlook2 : s.retirements.lookup vl.objId = some ret := by
    rw [hvo]
    exact hlook
  have hnodup2 : hasActiveRetRes s vl.objId = false := by
    rw [hvo]
    exact hnodup
  have hnotif2 : hasNotif s vl.objId = true := by
    rw [hvo]
    exact hnotif
  have hline2 := @processRetirementLine_promote
    { s with
      orders := inp.orderId :: s.orders,
      orderLines := s.orderLines ++ [mkRow inp.orderId vl] }
    vl ret hlook2 hnodup2 hrs hnotif2
  have hretv := @processRetirements_single
    { s with
      orders := inp.orderId :: s.orders,
      orderLines := s.orderLines ++ [mkRow inp.orderId vl] }
    vl _ hphone hcity hline2
  have htot : orderTotalCost { s with
      orders := inp.orderId :: s.orders,
      orderLines := s.orderLines ++ [mkRow inp.orderId vl] } inp.orderId =
      vl.cost := orderTotalCost_fresh hfresh vl
  have hfm : List.filter (fun r => r.ctype = CType.membership) [vl] = [] := by
    simp [hvc]
  have hfp : List.filter (fun r => r.ctype = CType.package) [vl] = [] := by
    simp [hvc]
  have hft : List.filter (fun r => r.ctype = CType.timeslot) [vl] = [] := by
    simp [hvc]
  have hfr : List.filter (fun r => r.ctype = CType.retirement) [vl] =
      [vl] := by
    simp [hvc]
  have hch : chargeStep
      (¬([] : List ValidLine).isEmpty ∨ ¬([] : List ValidLine).isEmpty ∨
        ¬([vl] : List ValidLine).isEmpty)
      true false
      (quantize2 (qmul (qmul vl.cost (qadd 1 inp.rate)) 100)) gw =
      (.ok (), [ExtCall.charge (roundHalfEven
        (quantize2 (qmul (qmul vl.cost (qadd 1 inp.rate)) 100)))]) := by
    have hc1 : ((¬([] : List ValidLine).isEmpty ∨
        ¬([] : List ValidLine).isEmpty ∨
        ¬([vl] : List ValidLine).isEmpty : Bool) = true) ∧
        True ∧
        truncQ (quantize2 (qmul (qmul vl.cost (qadd 1 inp.rate)) 100))
          ≠ 0 := ⟨rfl, trivial, hnz⟩
    simp only [chargeStep]
    rw [if_pos hc1, if_pos hgw]
  have hbody : createBody gw inp [vl] none s =
      (.ok ({ s with
          orders := inp.orderId :: s.orders,
          orderLines := s.orderLines ++ [mkRow inp.orderId vl],
          retRes := s.retRes ++ [⟨s.uid, vl.objId, true⟩],
          retirements :=
            setReservedSeats s.retirements vl.objId (ret.reservedSeats - 1),
          waitQueue :=
            if s.waitQueue.filter
                (fun e => e.1 = s.uid ∧ e.2 = vl.objId) ≠ [] then
              s.waitQueue.filter (fun e => ¬(e.1 = s.uid ∧ e.2 = vl.objId))
            else s.waitQueue },
        ⟨inp.orderId, quantize2 (qmul vl.cost inp.rate),
          quantize2 (qmul (qmul vl.cost (qadd 1 inp.rate)) 100)⟩),
       [ExtCall.charge (roundHalfEven
         (quantize2 (qmul (qmul vl.cost (qadd 1 inp.rate)) 100)))]) := by
    simp only [createBody, couponStep, List.map_cons, List.map_nil]
    rw [htot, hfm, hfp, hft, hfr]
    simp only [processMembership, processPackages, processTimeslots]
    rw [hretv, hpt, hsut, hch]
  have hoc : orderCreate gw inp s =
      ⟨{ s with
          orders := inp.orderId :: s.orders,
          orderLines := s.orderLines ++ [mkRow inp.orderId vl],
          retRes := s.retRes ++ [⟨s.uid, vl.objId, true⟩],
          retirements :=
            setReservedSeats s.retirements vl.objId (ret.reservedSeats - 1),
          waitQueue :=
            if s.waitQueue.filter
                (fun e => e.1 = s.uid ∧ e.2 = vl.objId) ≠ [] then
              s.waitQueue.filter (fun e => ¬(e.1 = s.uid ∧ e.2 = vl.objId))
            else s.waitQueue },
        [ExtCall.charge (roundHalfEven
          (quantize2 (qmul (qmul vl.cost (qadd 1 inp.rate)) 100)))],
        .ok ⟨inp.orderId, quantize2 (qmul vl.cost inp.rate),
          quantize2 (qmul (qmul vl.cost (qadd 1 inp.rate)) 100)⟩⟩ := by
    have hprof : ¬(inp.singleUseToken = true ∧ ¬s.hasProfile = true) := by
      simp [hsut]
    simp only [orderCreate, hrows, hrc]
    rw [if_neg hprof]
    rw [hbody]
  rw [hoc]
  refine ⟨rfl, ?_, ?_, ?_⟩
  · show (setReservedSeats s.retirements vl.objId
        (ret.reservedSeats - 1)).lookup rid =
      some { ret with reservedSeats := ret.reservedSeats - 1 }
    rw [hvo] at hlook2 ⊢
    exact lookup_setReservedSeats _ hlook2
  · show s.retRes ++ [⟨s.uid, vl.objId, true⟩] =
      s.retRes ++ [⟨s.uid, rid, true⟩]
    rw [hvo]
  · show ((if s.waitQueue.filter
          (fun e => e.1 = s.uid ∧ e.2 = vl.objId) ≠ [] then
        s.waitQueue.filter (fun e => ¬(e.1 = s.uid ∧ e.2 = vl.objId))
      else s.waitQueue).filter (fun e => e.1 = s.uid ∧ e.2 = rid)) = []
    rw [hvo]
    exact filter_waitQueue_cleared s.waitQueue s.uid rid

/-- Witness for `retirement_waitqueue_promotion`: retirement 20 with
capacity 3, two active reservations and one reserved seat; notified user 1
is admitted, `reserved_seats` drops to 0 and the wait-queue entry is
removed. -/
theorem retirement_waitqueue_promotion_witness :
    resultError (orderCreate wGwOk wInpRet wStC5).result = none ∧
    (orderCreate wGwOk wInpRet wStC5).st.retirements.lookup 20 =
      some ⟨100, 3, 0, []⟩ ∧
    (orderCreate wGwOk wInpRet wStC5).st.retRes =
      wStC5.retRes ++ [⟨1, 20, true⟩] ∧
    (orderCreate wGwOk wInpRet wStC5).st.waitQueue.filter
      (fun e => e.1 = 1 ∧ e.2 = 20) = [] :=
  retirement_waitqueue_promotion wGwOk wInpRet wStC5 20 1
    ⟨100, 3, 1, []⟩ ⟨CType.retirement, 20, 1, qmul 100 1⟩
    (by decide) (by decide) (by decide) (by decide) (by decide) (by decide)
    (by decide) (by decide) (by decide) (by decide) (by decide) (by decide)
    (by decide) (by decide) (by decide)

end BlitzOrder
